import Mathlib

/-!
Verification of the GTS (Global Type System) core: a shallow embedding of
the identifier algebra (`gts.py`), the cast engine (`schema_cast.py`),
the entity extractor (`entities.py`), the store (`store.py`) and the file
reader (`files_reader.py`), with theorems settling the frozen claims.

Python strings are modelled as `List Char` (`PyStr`); Python machine-level
behaviour that the code relies on (`str.strip`, `str.split`, `int(...)`,
dict insertion order, set construction) is modelled by explicit functions
below.  JSON documents are a tagged variant `Json`; JSON numbers are
modelled as integers, the only numerals the analysed claims exercise.
-/

namespace GtsSpec

/-- Python strings as lists of characters. -/
abbrev PyStr := List Char

/-- Coerce a Lean string literal to the `PyStr` model. -/
def pystr (s : String) : PyStr := s.data

/-- The whitespace characters removed by Python `str.strip()` (ASCII range;
Unicode-only whitespace is outside the inputs this development considers). -/
def isPySpace (c : Char) : Bool :=
  c = ' ' || c = '\t' || c = '\n' || c = '\r' || c = '\x0b' || c = '\x0c'

/-- Python `str.strip()`: drop leading and trailing whitespace. -/
def pyStrip (l : PyStr) : PyStr :=
  ((l.dropWhile isPySpace).reverse.dropWhile isPySpace).reverse

/-- Python `str.split(sep)` for a one-character separator: splits on every
occurrence, preserving empty pieces; never returns an empty list. -/
def pySplit (c : Char) : PyStr → List PyStr
  | [] => [[]]
  | a :: rest =>
    if a = c then [] :: pySplit c rest
    else
      match pySplit c rest with
      | s :: ss => (a :: s) :: ss
      | [] => [[a]]

/-- Join pieces with a one-character separator (inverse of `pySplit`). -/
def joinSep (c : Char) : List PyStr → PyStr
  | [] => []
  | [x] => x
  | x :: y :: rest => x ++ c :: joinSep c (y :: rest)

/-- Python `str.endswith(suffix)`. -/
def pyEndsWith (l suffix : PyStr) : Bool := suffix.isSuffixOf l

/-- Valid tail of a Python integer literal body after its first digit:
digits, with single underscores strictly between digits. -/
def pyIntTailOk : List Char → Bool
  | [] => true
  | '_' :: c :: rest => c.isDigit && pyIntTailOk (c :: rest)
  | c :: rest => c.isDigit && pyIntTailOk rest

/-- Valid body of a Python integer literal (after sign): non-empty,
digits with single underscores between digits. -/
def pyDigitsOk : List Char → Bool
  | [] => false
  | c :: rest => c.isDigit && pyIntTailOk rest

/-- Numeric value of a digit body, skipping underscores. -/
def pyDigitsVal (l : List Char) : Nat :=
  (l.filter (· ≠ '_')).foldl (fun acc c => acc * 10 + (c.toNat - '0'.toNat)) 0

/-- Python `int(s)`: strips whitespace, allows an optional sign, then a
digit body with single underscores between digits; `none` models the
`ValueError` Python raises otherwise. -/
def pyInt (s : PyStr) : Option Int :=
  let t := pyStrip s
  match t with
  | '+' :: rest => if pyDigitsOk rest then some (pyDigitsVal rest) else none
  | '-' :: rest => if pyDigitsOk rest then some (-(pyDigitsVal rest : Int)) else none
  | _ => if pyDigitsOk t then some (pyDigitsVal t) else none

/-- Lexicographic comparison of Python strings (code-point order),
modelling Python string `<=` as used by `sorted`. -/
def strLe : PyStr → PyStr → Bool
  | [], _ => true
  | _ :: _, [] => false
  | a :: as_, b :: bs => if a = b then strLe as_ bs else decide (a < b)

/-- Insert into a sorted list (ascending), modelling one step of sorting. -/
def sortedInsert (x : PyStr) : List PyStr → List PyStr
  | [] => [x]
  | y :: ys => if strLe x y then x :: y :: ys else y :: sortedInsert x ys

/-- Python `sorted` on a list of strings (insertion sort, code-point order). -/
def pySorted : List PyStr → List PyStr
  | [] => []
  | x :: xs => sortedInsert x (pySorted xs)

/-- The accumulating pass of `pyDedup`: keep an element unless an equal one
was already kept. -/
def pyDedupGo (seen : List PyStr) : List PyStr → List PyStr
  | [] => []
  | x :: xs => if seen.contains x then pyDedupGo seen xs else x :: pyDedupGo (seen ++ [x]) xs

/-- Python `list(dict.fromkeys(l))`: deduplicate keeping first occurrences. -/
def pyDedup (l : List PyStr) : List PyStr := pyDedupGo [] l

/-! ## The identifier algebra (`gts.py`) -/

/-- One parsed GTS segment (`GtsIdSegment.__init__`).  `segment` stores the
stripped source substring; the remaining fields are bound positionally from
the dot-separated tokens of the unstripped substring.  The `num`/`offset`
constructor arguments of the source only feed error messages and carry no
semantic content, so they are not modelled. -/
structure GtsIdSegment where
  segment : PyStr
  vendor : PyStr := []
  package : PyStr := []
  namespace_ : PyStr := []
  type : PyStr := []
  ver_major : Int := 0
  ver_minor : Option Int := none
  is_type : Bool := false
  is_wildcard : Bool := false
deriving Repr, DecidableEq

/-- Positional binding of the dot-separated tokens of a segment
(`GtsIdSegment._parse_segment_id` after the `~` handling): a `*` token sets
`is_wildcard` and stops; the 5th token must be `v<int>`, the 6th an int.
`none` models the raised `GtsInvalidSegment`. -/
def parseSegmentFields (tokens : List PyStr) (base : GtsIdSegment) : Option GtsIdSegment :=
  match tokens with
  | [] => some base
  | t0 :: r0 =>
    if t0 = pystr "*" then some { base with is_wildcard := true } else
    let b1 := { base with vendor := t0 }
    match r0 with
    | [] => some b1
    | t1 :: r1 =>
      if t1 = pystr "*" then some { b1 with is_wildcard := true } else
      let b2 := { b1 with package := t1 }
      match r1 with
      | [] => some b2
      | t2 :: r2 =>
        if t2 = pystr "*" then some { b2 with is_wildcard := true } else
        let b3 := { b2 with namespace_ := t2 }
        match r2 with
        | [] => some b3
        | t3 :: r3 =>
          if t3 = pystr "*" then some { b3 with is_wildcard := true } else
          let b4 := { b3 with type := t3 }
          match r3 with
          | [] => some b4
          | t4 :: r4 =>
            if t4 = pystr "*" then some { b4 with is_wildcard := true } else
            match t4 with
            | 'v' :: vrest =>
              match pyInt vrest with
              | none => none
              | some m =>
                let b5 := { b4 with ver_major := m }
                match r4 with
                | [] => some b5
                | t5 :: _ =>
                  if t5 = pystr "*" then some { b5 with is_wildcard := true } else
                  match pyInt t5 with
                  | none => none
                  | some mi => some { b5 with ver_minor := some mi }
            | _ => none

/-- Parse one segment string (`GtsIdSegment.__init__`): record the stripped
string, peel a trailing `~` (setting `is_type`), split the unstripped body
on `.`, reject more than 6 tokens, then bind tokens positionally. -/
def parseSegment (seg : PyStr) : Option GtsIdSegment :=
  let isT : Bool := pyEndsWith seg (pystr "~")
  let body := if isT then seg.dropLast else seg
  let tokens := pySplit '.' body
  if tokens.length > 6 then none
  else parseSegmentFields tokens { segment := pyStrip seg, is_type := isT }

/-- The segment-substring reconstruction loop of `GtsID.__init__`: re-append
`~` to every piece but the last, and drop a final empty piece produced by a
trailing `~`. -/
def mkParts : List PyStr → List PyStr
  | [] => []
  | [x] => [x]
  | [x, y] => if y = [] then [x ++ [ '~' ]] else [x ++ [ '~' ], y]
  | x :: y :: z :: rest => (x ++ [ '~' ]) :: mkParts (y :: z :: rest)

/-- Errors of the identifier parser: `GtsInvalidId` (raised by
`GtsID.__init__` itself) and `GtsInvalidSegment` (raised while parsing a
segment).  Message strings carry no semantic content and are not modelled. -/
inductive GtsErr where
  | invalidId
  | invalidSegment
deriving Repr, DecidableEq

/-- The per-part loop of `GtsID.__init__`: reject an empty part
(`GtsInvalidId`), else parse it as a segment (`GtsInvalidSegment` on
failure), in order. -/
def segsOf : List PyStr → Except GtsErr (List GtsIdSegment)
  | [] => .ok []
  | p :: rest =>
    if p = [] then .error .invalidId
    else
      match parseSegment p with
      | none => .error .invalidSegment
      | some seg =>
        match segsOf rest with
        | .ok segs => .ok (seg :: segs)
        | .error e => .error e

/-- A parsed GTS identifier: the stripped canonical string and its parsed
segments (`GtsID` with fields `id` and `gts_id_segments`). -/
structure GtsID where
  id : PyStr
  gts_id_segments : List GtsIdSegment
deriving Repr, DecidableEq

/-- `GtsID.__init__`: strip, require the `gts.` prefix and length at most
1024, split the suffix on `~` re-attaching the separators, then parse every
part as a segment. -/
def mkGtsID (s : PyStr) : Except GtsErr GtsID :=
  let raw := pyStrip s
  if ¬ (pystr "gts.").isPrefixOf raw then .error .invalidId
  else if raw.length > 1024 then .error .invalidId
  else
    match segsOf (mkParts (pySplit '~' (raw.drop 4))) with
    | .ok segs => .ok ⟨raw, segs⟩
    | .error e => .error e

/-- The parts list that `GtsID.__init__` derives from an input string;
its elements are the unstripped segment substrings. -/
def gtsParts (s : PyStr) : List PyStr :=
  mkParts (pySplit '~' ((pyStrip s).drop 4))

/-- `GtsID.is_valid`: a prefix pre-check on the unstripped string, then
parse success. -/
def isValidGts (s : PyStr) : Bool :=
  (pystr "gts.").isPrefixOf s && (mkGtsID s).toBool

/-- `GtsID.wildcard_match(pattern)`: without a `*`, stripped string
equality; with more than one `*` or a `*` not at the end, `False`;
otherwise prefix matching against the pattern with the `*` removed. -/
def wildcardMatch (cand pat : GtsID) : Bool :=
  let p := pat.id
  if ¬ ('*' ∈ p) then pyStrip p = pyStrip cand.id
  else if p.count '*' > 1 || ¬ pyEndsWith p (pystr "*") then false
  else p.dropLast.isPrefixOf cand.id

/-- Errors of the wildcard constructor: `GtsInvalidWildcard`, or a
`GtsInvalidSegment` escaping `GtsID.__init__` uncaught (the constructor
only catches `GtsInvalidId`). -/
inductive WildErr where
  | invalidWildcard
  | segmentErr
deriving Repr, DecidableEq

/-- `GtsWildcard.__init__`: strip, require the `gts.` prefix, reject a
pattern containing `*` that does not end with `.*`, then run the `GtsID`
parser, re-labelling its `GtsInvalidId` as `GtsInvalidWildcard`. -/
def mkGtsWildcard (pattern : PyStr) : Except WildErr GtsID :=
  let p := pyStrip pattern
  if ¬ (pystr "gts.").isPrefixOf p then .error .invalidWildcard
  else if '*' ∈ p && ¬ pyEndsWith p (pystr ".*") then .error .invalidWildcard
  else
    match mkGtsID p with
    | .ok g => .ok g
    | .error .invalidId => .error .invalidWildcard
    | .error .invalidSegment => .error .segmentErr

/-- `JsonEntityCastResult._infer_direction`: parse both ids, read the
`ver_minor` of the last segment of each; compare when both are present;
any failure or absence yields `unknown`.  The type prefix is not consulted. -/
def inferDirection (fromId toId : PyStr) : PyStr :=
  match mkGtsID fromId, mkGtsID toId with
  | .ok gf, .ok gt =>
    match gf.gts_id_segments.getLast?, gt.gts_id_segments.getLast? with
    | some sf, some st =>
      match sf.ver_minor, st.ver_minor with
      | some fm, some tm =>
        if tm > fm then pystr "up"
        else if tm < fm then pystr "down"
        else pystr "none"
      | _, _ => pystr "unknown"
    | _, _ => pystr "unknown"
  | _, _ => pystr "unknown"

/-! ## The JSON data model

JSON content is the tagged variant of spec §9 (object, array, string,
number, bool, null); numbers are modelled as integers, the only numerals
exercised by the claims.  Python dicts are insertion-ordered association
lists with unique keys; the operations below mirror `d[k]`, `d.get`,
`d[k] = v`, `del d[k]` and `k in d`. -/

inductive Json where
  | null
  | bool (b : Bool)
  | num (n : Int)
  | str (s : PyStr)
  | arr (elems : List Json)
  | obj (entries : List (PyStr × Json))
deriving Repr

/-- Python `d.get(k)`: the value at the first occurrence of key `k`. -/
def alookup {α : Type} (k : PyStr) : List (PyStr × α) → Option α
  | [] => none
  | (k2, v) :: rest => if k = k2 then some v else alookup k rest

/-- Python `k in d`. -/
def containsKey {α : Type} (k : PyStr) (l : List (PyStr × α)) : Bool :=
  l.any (fun kv => kv.1 = k)

/-- Python `d[k] = v`: replace in place at an existing key, else append. -/
def aset {α : Type} (l : List (PyStr × α)) (k : PyStr) (v : α) : List (PyStr × α) :=
  match l with
  | [] => [(k, v)]
  | (k2, v2) :: rest => if k = k2 then (k2, v) :: rest else (k2, v2) :: aset rest k v

/-- Python `del d[k]` (dict keys are unique, so removing every occurrence
coincides with removing the one). -/
def adel {α : Type} (l : List (PyStr × α)) (k : PyStr) : List (PyStr × α) :=
  l.filter (fun kv => kv.1 ≠ k)

/-- `schema.get(k)` for a JSON value known to be a dict at every call site
(`none` on a non-dict, which Python would never reach). -/
def sget (j : Json) (k : PyStr) : Option Json :=
  match j with
  | .obj kvs => alookup k kvs
  | _ => none

mutual

/-- A kernel-computable size of a JSON tree, used as recursion fuel: every
proper subvalue has a strictly smaller size. -/
def jsonSize : Json → Nat
  | .null => 1
  | .bool _ => 1
  | .num _ => 1
  | .str _ => 1
  | .arr xs => 1 + jsonSizeList xs
  | .obj kvs => 1 + jsonSizeObj kvs

def jsonSizeList : List Json → Nat
  | [] => 0
  | x :: xs => 1 + jsonSize x + jsonSizeList xs

def jsonSizeObj : List (PyStr × Json) → Nat
  | [] => 0
  | (_, v) :: rest => 1 + jsonSize v + jsonSizeObj rest

end

/-- Elementwise equality of JSON arrays, parameterized by the comparison
used on elements. -/
def jsonArrEqGo (eqv : Json → Json → Bool) : List Json → List Json → Bool
  | [], [] => true
  | x :: xs, y :: ys => eqv x y && jsonArrEqGo eqv xs ys
  | _, _ => false

/-- One direction of Python dict `==`: every entry of the first dict has an
equal value (under `eqv`) at the same key in the second. -/
def jsonObjSubGo (eqv : Json → Json → Bool) : List (PyStr × Json) → List (PyStr × Json) → Bool
  | [], _ => true
  | (k, v) :: rest, other =>
    (match alookup k other with
     | some w => eqv v w
     | none => false) && jsonObjSubGo eqv rest other

/-- Python `==` on JSON values, with explicit recursion fuel: structural on
scalars and arrays, `bool`/`int` cross-equality (`True == 1` in Python),
and order-insensitive comparison of dicts (same key sets, equal values). -/
def jsonEqF : Nat → Json → Json → Bool
  | 0, _, _ => false
  | fuel+1, a, b =>
    match a, b with
    | .null, .null => true
    | .bool x, .bool y => x = y
    | .num x, .num y => x = y
    | .bool x, .num y => (if x then (1 : Int) else 0) = y
    | .num x, .bool y => x = (if y then (1 : Int) else 0)
    | .str x, .str y => x = y
    | .arr x, .arr y => jsonArrEqGo (jsonEqF fuel) x y
    | .obj x, .obj y => jsonObjSubGo (jsonEqF fuel) x y && y.all (fun kv => containsKey kv.1 x)
    | _, _ => false

/-- Python `==` on JSON values.  The fuel `jsonSize a` bounds the nesting
depth of the comparison, since every recursive comparison happens on a
proper subvalue of the left argument. -/
def jsonEq (a b : Json) : Bool := jsonEqF (jsonSize a) a b

/-- The accumulating pass of `jsonDedup`: keep an element unless an
`==`-equal one was already kept. -/
def jsonDedupGo (seen : List Json) : List Json → List Json
  | [] => []
  | x :: xs =>
    if seen.any (fun y => jsonEq y x) then jsonDedupGo seen xs
    else x :: jsonDedupGo (seen ++ [x]) xs

/-- Python `set(l)` on a list of JSON values: deduplicate by `==`, keeping
first occurrences (one admissible iteration order of the resulting set). -/
def jsonDedup (l : List Json) : List Json := jsonDedupGo [] l

/-- Python `x == "<literal>"` for a value obtained from `d.get(k)` (missing
keys compare unequal to any string). -/
def optIsStr (o : Option Json) (s : PyStr) : Bool :=
  match o with
  | some (.str t) => t = s
  | _ => false

/-! ## The cast engine (`schema_cast.py`)

`_cast_instance_to_schema` recurses only into strictly smaller sub-schemas
(property schemas, their `allOf` members and object `items`), so its
recursion depth is bounded by the size of the schema tree.  The embedding
makes that bound explicit: `castStepF` carries recursion fuel, decremented
at each nesting level, and the wrapper `castInstanceToSchema` supplies
`jsonSize schema`, which the depth of the Python recursion never reaches. -/

/-- `JsonEntityCastResult._effective_object_schema`: a dict with
`properties` (dict) or `required` (list) at top level is used directly;
otherwise the first such dict member of `allOf`; otherwise the dict
itself.  A non-dict input yields the empty dict. -/
def effectiveObjectSchema (s : Json) : Json :=
  match s with
  | .obj kvs =>
    let hasPR : Json → Bool := fun j =>
      (match sget j (pystr "properties") with | some (.obj _) => true | _ => false)
      || (match sget j (pystr "required") with | some (.arr _) => true | _ => false)
    if hasPR (.obj kvs) then .obj kvs
    else
      match alookup (pystr "allOf") kvs with
      | some (.arr parts) =>
        match parts.find? (fun p => (match p with | .obj _ => true | _ => false) && hasPR p) with
        | some part => part
        | none => .obj kvs
      | _ => .obj kvs
  | _ => .obj []

/-- Python `str()` of a JSON value used as a dict key in a message path;
only string keys are semantically relevant (a non-string `required` entry
always takes the no-default error branch). -/
def jsonKeyStr : Json → PyStr
  | .str s => s
  | _ => pystr "?"

/-- The dotted-path formatting `prop` or `base_path + "." + prop`. -/
def dottedPath (basePath prop : PyStr) : PyStr :=
  if basePath = [] then prop else basePath ++ '.' :: prop

/-- The missing-required error message of `_cast_instance_to_schema`
(the apostrophes of the Python f-string are elided). -/
def missingRequiredMsg (path : PyStr) : PyStr :=
  pystr "Missing required property " ++ path ++ pystr " and no default is defined"

/-- `schema.get("properties", {}) if isinstance(..., dict) else {}` of
`_cast_instance_to_schema`. -/
def schemaTargetProps (schema : Json) : List (PyStr × Json) :=
  match sget schema (pystr "properties") with
  | some (.obj ps) => ps
  | _ => []

/-- `set(schema.get("required", [])) if isinstance(..., list) else set()`
of `_cast_instance_to_schema`. -/
def schemaRequiredL (schema : Json) : List Json :=
  match sget schema (pystr "required") with
  | some (.arr xs) => jsonDedup xs
  | _ => []

/-- `schema.get("additionalProperties", True) is False` of
`_cast_instance_to_schema`. -/
def schemaAdditionalFalse (schema : Json) : Bool :=
  match sget schema (pystr "additionalProperties") with
  | some (.bool false) => true
  | _ => false

/-- `isinstance(p_schema, dict) and "default" in p_schema`: whether a
property schema is a dict carrying a `default`. -/
def hasDefault : Json → Bool
  | .obj pkvs => (alookup (pystr "default") pkvs).isSome
  | _ => false

/-- `isinstance(x, dict)` on a JSON value. -/
def isObjJson : Json → Bool
  | .obj _ => true
  | _ => false

/-- Step 1 of `_cast_instance_to_schema`: for every element of the
`required` set absent from the instance, insert the (deep-copied, which is
the identity on immutable values) property default when its schema is a
dict carrying one, recording the dotted path in `added`; otherwise raise
`SchemaCastError`. -/
def castPhase1 (targetProps : List (PyStr × Json)) (basePath : PyStr) :
    List Json → List (PyStr × Json) → List PyStr →
    Except PyStr (List (PyStr × Json) × List PyStr)
  | [], result, added => .ok (result, added)
  | prop :: rest, result, added =>
    let isStrProp : Bool := match prop with | .str _ => true | _ => false
    let k := jsonKeyStr prop
    if isStrProp && containsKey k result then
      castPhase1 targetProps basePath rest result added
    else
      let pSchema : Json := if isStrProp then (alookup k targetProps).getD (.obj []) else .obj []
      match pSchema with
      | .obj pkvs =>
        match alookup (pystr "default") pkvs with
        | some d =>
          castPhase1 targetProps basePath rest (aset result k d) (added ++ [dottedPath basePath k])
        | none => .error (missingRequiredMsg (dottedPath basePath k))
      | _ => .error (missingRequiredMsg (dottedPath basePath k))

/-- Step 2 of `_cast_instance_to_schema`: for every non-required target
property with a `default` that is absent from the instance, insert the
default and record the dotted path in `added`. -/
def castPhase2 (basePath : PyStr) (requiredL : List Json) :
    List (PyStr × Json) → List (PyStr × Json) → List PyStr →
    List (PyStr × Json) × List PyStr
  | [], result, added => (result, added)
  | (prop, pSchema) :: rest, result, added =>
    if requiredL.any (fun r => jsonEq r (.str prop)) then
      castPhase2 basePath requiredL rest result added
    else if ¬ containsKey prop result then
      match pSchema with
      | .obj pkvs =>
        match alookup (pystr "default") pkvs with
        | some d =>
          castPhase2 basePath requiredL rest (aset result prop d) (added ++ [dottedPath basePath prop])
        | none => castPhase2 basePath requiredL rest result added
      | _ => castPhase2 basePath requiredL rest result added
    else castPhase2 basePath requiredL rest result added

/-- Step 3 of `_cast_instance_to_schema` (`additionalProperties is False`):
delete every instance key not declared in the target properties, iterating
over a snapshot of the keys and recording dotted paths in `removed`. -/
def castPhase3 (targetProps : List (PyStr × Json)) (basePath : PyStr) :
    List PyStr → List (PyStr × Json) → List PyStr →
    List (PyStr × Json) × List PyStr
  | [], result, removed => (result, removed)
  | k :: rest, result, removed =>
    if containsKey k targetProps then castPhase3 targetProps basePath rest result removed
    else castPhase3 targetProps basePath rest (adel result k) (removed ++ [dottedPath basePath k])

/-- The elementwise loop of step 4 over an array-valued property: cast each
dict element against the nested effective object schema via `recurse`,
tracking the path as `prop[index]`; non-dict elements pass through. -/
def castItemsGo
    (recurse : Json → Json → PyStr → Except PyStr (Json × List PyStr × List PyStr))
    (childBase : PyStr) (nested : Json) :
    List Json → Nat → List Json → List PyStr → List PyStr →
    Except PyStr (List Json × List PyStr × List PyStr)
  | [], _, acc, added, removed => .ok (acc, added, removed)
  | item :: rest, idx, acc, added, removed =>
    match item with
    | .obj _ =>
      match recurse item nested (childBase ++ '[' :: (Nat.repr idx).data ++ [ ']' ]) with
      | .error e => .error e
      | .ok (newItem, a2, r2) =>
        castItemsGo recurse childBase nested rest (idx + 1) (acc ++ [newItem])
          (added ++ a2) (removed ++ r2)
    | _ => castItemsGo recurse childBase nested rest (idx + 1) (acc ++ [item]) added removed

/-- Step 4 of `_cast_instance_to_schema`: walk the target properties in
order; recurse (via `recurse`) into a dict value whose property schema
declares `type: "object"`, and elementwise into a list value whose
property schema declares `type: "array"` with object `items`. -/
def castPhase4Go
    (recurse : Json → Json → PyStr → Except PyStr (Json × List PyStr × List PyStr))
    (basePath : PyStr) :
    List (PyStr × Json) → List (PyStr × Json) → List PyStr → List PyStr →
    Except PyStr (Json × List PyStr × List PyStr)
  | [], result, added, removed => .ok (.obj result, added, removed)
  | (prop, pSchema) :: rest, result, added, removed =>
    match alookup prop result with
    | none => castPhase4Go recurse basePath rest result added removed
    | some val =>
      match pSchema with
      | .obj pkvs =>
        let pType := alookup (pystr "type") pkvs
        if optIsStr pType (pystr "object") then
          match val with
          | .obj _ =>
            match recurse val (effectiveObjectSchema pSchema) (dottedPath basePath prop) with
            | .error e => .error e
            | .ok (newObj, addSub, remSub) =>
              castPhase4Go recurse basePath rest (aset result prop newObj)
                (added ++ addSub) (removed ++ remSub)
          | _ => castPhase4Go recurse basePath rest result added removed
        else if optIsStr pType (pystr "array") then
          match val with
          | .arr items =>
            match alookup (pystr "items") pkvs with
            | some (.obj itemKvs) =>
              if optIsStr (alookup (pystr "type") itemKvs) (pystr "object") then
                match castItemsGo recurse (dottedPath basePath prop)
                    (effectiveObjectSchema (.obj itemKvs)) items 0 [] added removed with
                | .error e => .error e
                | .ok (newList, a2, r2) =>
                  castPhase4Go recurse basePath rest (aset result prop (.arr newList)) a2 r2
              else castPhase4Go recurse basePath rest result added removed
            | _ => castPhase4Go recurse basePath rest result added removed
          | _ => castPhase4Go recurse basePath rest result added removed
        else castPhase4Go recurse basePath rest result added removed
      | _ => castPhase4Go recurse basePath rest result added removed

/-- `_cast_instance_to_schema` with explicit recursion fuel: reject a
non-object instance, then run steps 1-3 and step 4 with one fuel unit
consumed per nesting level. -/
def castStepF : Nat → Json → Json → PyStr → Except PyStr (Json × List PyStr × List PyStr)
  | 0, _, _, _ => .error (pystr "recursion fuel exhausted")
  | fuel+1, instance_, schema, basePath =>
    match instance_ with
    | .obj ikvs =>
      let targetProps := schemaTargetProps schema
      let requiredL := schemaRequiredL schema
      let additionalFalse := schemaAdditionalFalse schema
      match castPhase1 targetProps basePath requiredL ikvs [] with
      | .error e => .error e
      | .ok (r1, added1) =>
        let (r2, added2) := castPhase2 basePath requiredL targetProps r1 added1
        let (r3, removed3) :=
          if additionalFalse then castPhase3 targetProps basePath (r2.map (fun kv => kv.1)) r2 []
          else (r2, [])
        castPhase4Go (castStepF fuel) basePath targetProps r3 added2 removed3
    | _ => .error (pystr "Instance must be an object for casting")

/-- `_cast_instance_to_schema`: fuel `jsonSize schema` strictly exceeds the
recursion depth, because every recursive call passes a schema that is a
proper subvalue of the current one. -/
def castInstanceToSchema (instance_ schema : Json) (basePath : PyStr) :
    Except PyStr (Json × List PyStr × List PyStr) :=
  castStepF (jsonSize schema) instance_ schema basePath

/-! ## The external JSON Schema validator

Modelled from the spec: the validator `jsonschema.validate` is an external
black-box library, "accepting `(instance, schema) → valid | error`"
(spec §1), not code of this repository.  It is modelled here with the
standard JSON Schema semantics of exactly the keywords the analysed
schemas exercise: `type`, `properties`, `required`,
`additionalProperties: false` and `items`; other keywords are treated as
annotations.  Error-message text is abstracted. -/

/-- The `type` keyword check of the modelled validator. -/
def jsTypeOk (t : PyStr) (inst : Json) : Bool :=
  if t = pystr "object" then (match inst with | .obj _ => true | _ => false)
  else if t = pystr "array" then (match inst with | .arr _ => true | _ => false)
  else if t = pystr "string" then (match inst with | .str _ => true | _ => false)
  else if t = pystr "integer" then (match inst with | .num _ => true | _ => false)
  else if t = pystr "number" then (match inst with | .num _ => true | _ => false)
  else if t = pystr "boolean" then (match inst with | .bool _ => true | _ => false)
  else if t = pystr "null" then (match inst with | .null => true | _ => false)
  else true

/-- The `properties` loop of the modelled validator: each declared property
present in the instance must validate against its sub-schema. -/
def jsPropsGo (recurse : Json → Json → Bool)
    (ikvs : List (PyStr × Json)) : List (PyStr × Json) → Bool
  | [] => true
  | (k, psch) :: rest =>
    (match alookup k ikvs with
     | some v => recurse v psch
     | none => true) && jsPropsGo recurse ikvs rest

/-- Modelled from the spec: `jsonschema.validate`, with explicit recursion
fuel (one unit per nesting level; sub-schemas are proper subvalues, so
`jsonSize schema` bounds the depth). -/
def jsValidateF : Nat → Json → Json → Bool
  | 0, _, _ => false
  | fuel+1, inst, schema =>
    match schema with
    | .bool b => b
    | .obj skvs =>
      let typeOk :=
        match alookup (pystr "type") skvs with
        | some (.str t) => jsTypeOk t inst
        | some (.arr ts) => ts.any (fun tj => match tj with | .str t => jsTypeOk t inst | _ => false)
        | _ => true
      let reqOk :=
        match inst, alookup (pystr "required") skvs with
        | .obj ikvs, some (.arr req) =>
          req.all (fun r => match r with | .str k => containsKey k ikvs | _ => true)
        | _, _ => true
      let propsOk :=
        match inst, alookup (pystr "properties") skvs with
        | .obj ikvs, some (.obj props) => jsPropsGo (jsValidateF fuel) ikvs props
        | _, _ => true
      let addOk :=
        match inst, alookup (pystr "additionalProperties") skvs with
        | .obj ikvs, some (.bool false) =>
          let props : List (PyStr × Json) :=
            match alookup (pystr "properties") skvs with
            | some (.obj props) => props
            | _ => []
          ikvs.all (fun kv => containsKey kv.1 props)
        | _, _ => true
      let itemsOk :=
        match inst, alookup (pystr "items") skvs with
        | .arr elems, some isch => elems.all (fun e => jsValidateF fuel e isch)
        | _, _ => true
      typeOk && reqOk && propsOk && addOk && itemsOk
    | _ => true

/-- Modelled from the spec: `jsonschema.validate(instance, schema)` as a
boolean verdict (`true` = no `ValidationError`). -/
def jsValidate (inst schema : Json) : Bool := jsValidateF (jsonSize schema) inst schema

/-- The abstracted message of a `jsonschema.ValidationError` recorded in
`incompatibility_reasons` (the source stores `ve.message`, whose text
carries no semantic weight here). -/
def validationFailedMsg : PyStr := pystr "schema validation failed"

/-- The `JsonEntityCastResult` dataclass. -/
structure JsonEntityCastResult where
  from_id : PyStr
  to_id : PyStr
  direction : PyStr
  added_properties : List PyStr
  removed_properties : List PyStr
  changed_properties : List (PyStr × PyStr)
  fully_compatible : Bool
  incompatibility_reasons : List PyStr
  casted_instance : Option Json := none
deriving Repr

/-- `JsonEntityCastResult.cast`: normalize the target to its effective
object schema, infer the direction, deep-copy the instance (identity here)
substituting an empty dict for non-dict content, transform it, and
validate the result against the full target schema.  A `SchemaCastError`
yields a result with the error as the sole incompatibility reason (the
`added`/`removed` accumulators are still the pre-call empty lists); a
validation failure yields `fully_compatible = false` and no casted
instance. -/
def JsonEntityCastResult.cast (from_instance_id to_schema_id : PyStr)
    (from_instance_content to_schema_content : Json) : JsonEntityCastResult :=
  let target_schema := effectiveObjectSchema to_schema_content
  let direction := inferDirection from_instance_id to_schema_id
  let input : Json :=
    match from_instance_content with
    | .obj kvs => .obj kvs
    | _ => .obj []
  match castInstanceToSchema input target_schema [] with
  | .error e =>
    { from_id := from_instance_id
      to_id := to_schema_id
      direction := direction
      added_properties := pySorted (pyDedup [])
      removed_properties := pySorted (pyDedup [])
      changed_properties := []
      fully_compatible := false
      incompatibility_reasons := [e]
      casted_instance := none }
  | .ok (casted, added, removed) =>
    let ok := jsValidate casted to_schema_content
    { from_id := from_instance_id
      to_id := to_schema_id
      direction := direction
      added_properties := pySorted (pyDedup added)
      removed_properties := pySorted (pyDedup removed)
      changed_properties := []
      fully_compatible := ok
      incompatibility_reasons := if ok then [] else [validationFailedMsg]
      casted_instance := if ok then some casted else none }

/-! ## The entity extractor (`entities.py`)

Only the fields and construction steps the claims exercise are modelled;
presentation-only fields of the `JsonEntity` dataclass (`file`, `label`,
`description`, `validation`, `schemaRefs`, `list_sequence`,
`selected_schema_id_field`) are omitted. -/

/-- The registry unit (`JsonEntity`), restricted to the semantically
exercised fields.  `gts_refs` holds `(id, sourcePath)` pairs. -/
structure JsonEntity where
  gts_id : Option GtsID := none
  is_schema : Bool := false
  content : Json := .null
  gts_refs : List (PyStr × PyStr) := []
  schemaId : Option PyStr := none
  selected_entity_field : Option PyStr := none
deriving Repr

/-- `(self.content or {}).get(f) if isinstance(self.content, dict) else
None`, keeping only string values (the loops test `isinstance(v, str)`). -/
def contentStrField (content : Json) (f : PyStr) : Option PyStr :=
  match content with
  | .obj kvs =>
    match alookup f kvs with
    | some (.str v) => some v
    | _ => none
  | _ => none

/-- First loop of `JsonEntity._first_non_empty_field`: the first field
whose value is a string that is non-blank and a valid GTS identifier. -/
def fieldLoop1 (content : Json) : List PyStr → Option (PyStr × PyStr)
  | [] => none
  | f :: rest =>
    match contentStrField content f with
    | some v => if pyStrip v ≠ [] ∧ isValidGts v then some (f, v) else fieldLoop1 content rest
    | none => fieldLoop1 content rest

/-- Second loop of `JsonEntity._first_non_empty_field`: the first field
whose value is a string that is non-blank (truthy `v.strip()`). -/
def fieldLoop2 (content : Json) : List PyStr → Option (PyStr × PyStr)
  | [] => none
  | f :: rest =>
    match contentStrField content f with
    | some v => if pyStrip v ≠ [] then some (f, v) else fieldLoop2 content rest
    | none => fieldLoop2 content rest

/-- `JsonEntity._first_non_empty_field`: first valid-identifier field,
else first non-blank string field, else nothing. -/
def firstNonEmptyField (content : Json) (fields : List PyStr) : Option (PyStr × PyStr) :=
  match fieldLoop1 content fields with
  | some fv => some fv
  | none => fieldLoop2 content fields

/-- `JsonEntity._calc_json_entity_id` (result and
`selected_entity_field`): the winning field value, else the
`{filePath}#{seqIndex}` / `filePath` / empty-string fallbacks. -/
def calcJsonEntityId (content : Json) (entityFields : List PyStr)
    (filePath : Option PyStr) (listSeq : Option Nat) : PyStr × Option PyStr :=
  match firstNonEmptyField content entityFields with
  | some (f, v) => (v, some f)
  | none =>
    match filePath, listSeq with
    | some p, some i => (p ++ '#' :: (Nat.repr i).data, none)
    | some p, none => (p, none)
    | none, _ => ([], none)

/-- The `gts_id` assignment of `JsonEntity.__init__` when a config is
given: `GtsID(idv)` if the detected id is non-empty and valid, else
unset. -/
def detectGtsId (content : Json) (entityFields : List PyStr)
    (filePath : Option PyStr) (listSeq : Option Nat) : Option GtsID :=
  let idv := (calcJsonEntityId content entityFields filePath listSeq).1
  if idv ≠ [] ∧ isValidGts idv then (mkGtsID idv).toOption else none

/-! ## The store (`store.py`) and the file reader (`files_reader.py`) -/

/-- The `GtsReader` capability the store exercises on a cache miss:
`read_by_id`.  (Iteration only feeds the one-shot population loop and is
not needed by the analysed claims.) -/
structure GtsReaderM where
  readById : PyStr → Option JsonEntity

/-- `GtsFileReader.read_by_id`: the file reader does not support random
access by ID and returns `None` unconditionally. -/
def gtsFileReaderReadById (_entity_id : PyStr) : Option JsonEntity := none

/-- The file reader, as seen through the store's cache-miss path. -/
def gtsFileReader : GtsReaderM := ⟨gtsFileReaderReadById⟩

/-- The registry (`GtsStore`): the identifier-keyed entity dict and the
optional reader. -/
structure GtsStore where
  by_id : List (PyStr × JsonEntity)
  reader : Option GtsReaderM

/-- `GtsStore.register`: requires a truthy `gts_id` with a truthy id
string (`ValueError` otherwise), then replaces any prior entry. -/
def GtsStore.register (s : GtsStore) (entity : JsonEntity) : Except PyStr GtsStore :=
  match entity.gts_id with
  | none => .error (pystr "Entity must have a valid gts_id")
  | some g =>
    if g.id = [] then .error (pystr "Entity must have a valid gts_id")
    else .ok { s with by_id := aset s.by_id g.id entity }

/-- `GtsStore.get`: cache hit, else ask the reader (caching a hit), else
`None`; returns the possibly-updated store alongside the result. -/
def GtsStore.get (s : GtsStore) (entity_id : PyStr) : Option JsonEntity × GtsStore :=
  match alookup entity_id s.by_id with
  | some e => (some e, s)
  | none =>
    match s.reader with
    | some r =>
      match r.readById entity_id with
      | some e => (some e, { s with by_id := aset s.by_id entity_id e })
      | none => (none, s)
    | none => (none, s)

/-- `required` extraction of `GtsStore.is_minor_compatible`:
`set(schema.get("required", []))`, iterating a list, the characters of a
string, or the keys of a dict (other present non-iterables raise
`TypeError` in Python and are not modelled). -/
def minorReqSet (schema : List (PyStr × Json)) : List Json :=
  match alookup (pystr "required") schema with
  | some (.arr xs) => jsonDedup xs
  | some (.str cs) => jsonDedup (cs.map (fun c => .str [c]))
  | some (.obj kvs) => jsonDedup (kvs.map (fun kv => .str kv.1))
  | _ => []

/-- `properties` extraction of `GtsStore.is_minor_compatible`:
`schema.get("properties", {})` (a present non-dict raises on `.keys()` in
Python and is not modelled). -/
def minorProps (schema : List (PyStr × Json)) : List (PyStr × Json) :=
  match alookup (pystr "properties") schema with
  | some (.obj p) => p
  | _ => []

/-- Python set `==` between two `set(...)` values: mutual membership. -/
def jsonSetEq (a b : List Json) : Bool :=
  a.all (fun x => b.any (fun y => jsonEq x y)) && b.all (fun x => a.any (fun y => jsonEq x y))

/-- `GtsStore.is_minor_compatible`: fetch both schemas (threading the
cache updates of `get`), fall back to `{}` for non-dict content, require
equal `required` sets and `==`-equal definitions for every property key
present in both; all other schema-level differences are ignored. -/
def GtsStore.is_minor_compatible (s : GtsStore) (old_schema_id new_schema_id : PyStr) : Bool :=
  let r1 := s.get old_schema_id
  let r2 := r1.2.get new_schema_id
  match r1.1, r2.1 with
  | some oldE, some newE =>
    let old_schema : List (PyStr × Json) :=
      match oldE.content with | .obj kvs => kvs | _ => []
    let new_schema : List (PyStr × Json) :=
      match newE.content with | .obj kvs => kvs | _ => []
    let old_props := minorProps old_schema
    let new_props := minorProps new_schema
    let old_req := minorReqSet old_schema
    let new_req := minorReqSet new_schema
    if ¬ jsonSetEq old_req new_req then false
    else
      old_props.all (fun kv =>
        if containsKey kv.1 new_props then
          jsonEq ((alookup kv.1 old_props).getD .null) ((alookup kv.1 new_props).getD .null)
        else true)
  | _, _ => false

/-- The runtime error of `GtsStore.build_schema_graph`: every recursive
call site reads the name `seen`, which is not bound anywhere (the set in
scope is named `seen_gts_ids`), so Python raises
`NameError: name 'seen' is not defined` before recursing. -/
inductive PyRuntimeErr where
  | nameErrorSeen
deriving Repr, DecidableEq

/-- A node of the reference graph: id, refs keyed by source path, optional
schema node, and error strings. -/
inductive GraphNode where
  | mk (id : PyStr) (refs : List (PyStr × GraphNode))
       (schema_id : Option GraphNode) (errors : List PyStr)

/-- The `json-schema.org` URL filter of `gts2node`. -/
def jsonSchemaOrgRef (s : PyStr) : Bool :=
  (pystr "http://json-schema.org").isPrefixOf s || (pystr "https://json-schema.org").isPrefixOf s

/-- The inner `gts2node` of `GtsStore.build_schema_graph`, translated
faithfully with its unbound-name bug: a previously seen id yields a stub
`{id}`; otherwise the entity is fetched, and the first embedded reference
that is neither a self-reference nor a `json-schema.org` URL — or, failing
that, a truthy non-`json-schema.org` `schemaId` — evaluates the unbound
name `seen` at the recursive call site and raises `NameError`.  A missing
entity yields `errors: ["Entity not found"]`; a falsy `schemaId` yields
`errors: ["Schema not recognized"]`. -/
def GtsStore.gts2node (s : GtsStore) (gts_id : PyStr) (seen_gts_ids : List PyStr) :
    Except PyRuntimeErr GraphNode :=
  if gts_id ∈ seen_gts_ids then .ok (.mk gts_id [] none [])
  else
    match (s.get gts_id).1 with
    | none => .ok (.mk gts_id [] none [pystr "Entity not found"])
    | some e =>
      if e.gts_refs.any (fun r => r.1 ≠ gts_id && ¬ jsonSchemaOrgRef r.1) then
        .error .nameErrorSeen
      else
        match e.schemaId with
        | some sid =>
          if sid = [] then .ok (.mk gts_id [] none [pystr "Schema not recognized"])
          else if jsonSchemaOrgRef sid then .ok (.mk gts_id [] none [])
          else .error .nameErrorSeen
        | none => .ok (.mk gts_id [] none [pystr "Schema not recognized"])

/-- `GtsStore.build_schema_graph`: run `gts2node` on a fresh `seen` set. -/
def GtsStore.build_schema_graph (s : GtsStore) (gts_id : PyStr) :
    Except PyRuntimeErr GraphNode :=
  s.gts2node gts_id []

/-! ## Concrete fixtures used by counterexamples and witnesses -/

/-- S4 target schema: requires `a` and `b`, `b` defaults to `7`,
`additionalProperties: false`. -/
def fxS4Schema : Json := .obj [
  (pystr "type", .str (pystr "object")),
  (pystr "properties", .obj [
    (pystr "a", .obj [(pystr "type", .str (pystr "integer"))]),
    (pystr "b", .obj [(pystr "type", .str (pystr "integer")), (pystr "default", .num 7)])]),
  (pystr "required", .arr [.str (pystr "a"), .str (pystr "b")]),
  (pystr "additionalProperties", .bool false)]

/-- Two registered schemas that agree on `properties`/`required` but differ
in the top-level keyword `title`. -/
def fxMinorOldSchema : Json :=
  .obj [(pystr "title", .str (pystr "a")), (pystr "required", .arr []),
        (pystr "properties", .obj [])]

/-- See `fxMinorOldSchema`. -/
def fxMinorNewSchema : Json :=
  .obj [(pystr "title", .str (pystr "b")), (pystr "required", .arr []),
        (pystr "properties", .obj [])]

/-- A store holding the two `fxMinor*` schemas. -/
def fxMinorStore : GtsStore :=
  ⟨[(pystr "gts.v.p.n.T.v1.0~", { content := fxMinorOldSchema }),
    (pystr "gts.v.p.n.T.v1.1~", { content := fxMinorNewSchema })], none⟩

/-- A store holding one entity `gts.a.p.n.A.v1` with an embedded reference
to `gts.a.p.n.B.v1` at source path `ref`. -/
def fxGraphStore : GtsStore :=
  ⟨[(pystr "gts.a.p.n.A.v1",
     { gts_id := (mkGtsID (pystr "gts.a.p.n.A.v1")).toOption,
       gts_refs := [(pystr "gts.a.p.n.B.v1", pystr "ref")] })], none⟩


/-! ## Association-list lemmas -/

theorem alookup_cons {α : Type} (ka : PyStr) (va : α) (tl : List (PyStr × α)) (k : PyStr) :
    alookup k ((ka, va) :: tl) = if k = ka then some va else alookup k tl := rfl

theorem aset_cons {α : Type} (ka : PyStr) (va : α) (tl : List (PyStr × α)) (k : PyStr) (v : α) :
    aset ((ka, va) :: tl) k v = if k = ka then (ka, v) :: tl else (ka, va) :: aset tl k v := rfl

theorem containsKey_cons {α : Type} (ka : PyStr) (va : α) (tl : List (PyStr × α)) (k : PyStr) :
    containsKey k ((ka, va) :: tl) = (decide (ka = k) || containsKey k tl) := by
  simp [containsKey]

theorem alookup_aset_self {α : Type} (l : List (PyStr × α)) (k : PyStr) (v : α) :
    alookup k (aset l k v) = some v := by
  induction l with
  | nil => simp [aset, alookup]
  | cons hd tl ih =>
    obtain ⟨ka, va⟩ := hd
    rw [aset_cons]
    by_cases h : k = ka
    · rw [if_pos h, alookup_cons, if_pos h]
    · rw [if_neg h, alookup_cons, if_neg h, ih]

theorem alookup_aset_ne {α : Type} (l : List (PyStr × α)) {k k2 : PyStr} (v : α)
    (h : k2 ≠ k) : alookup k2 (aset l k v) = alookup k2 l := by
  induction l with
  | nil =>
    show (if k2 = k then some v else none) = none
    rw [if_neg h]
  | cons hd tl ih =>
    obtain ⟨ka, va⟩ := hd
    rw [aset_cons]
    by_cases hk : k = ka
    · rw [if_pos hk, alookup_cons, alookup_cons]
      subst hk
      rw [if_neg h, if_neg h]
    · rw [if_neg hk, alookup_cons, alookup_cons, ih]

theorem containsKey_aset_ne {α : Type} (l : List (PyStr × α)) {k k2 : PyStr} (v : α)
    (h : k2 ≠ k) : containsKey k2 (aset l k v) = containsKey k2 l := by
  induction l with
  | nil =>
    show containsKey k2 [(k, v)] = containsKey k2 []
    rw [containsKey_cons]
    have hd : (decide (k = k2)) = false := by
      simp only [decide_eq_false_iff_not]
      exact fun hh => h hh.symm
    rw [hd]
    rfl
  | cons hd tl ih =>
    obtain ⟨ka, va⟩ := hd
    rw [aset_cons]
    by_cases hk : k = ka
    · rw [if_pos hk, containsKey_cons, containsKey_cons]
    · rw [if_neg hk, containsKey_cons, containsKey_cons, ih]

theorem alookup_adel_ne {α : Type} (l : List (PyStr × α)) {k k2 : PyStr}
    (h : k2 ≠ k) : alookup k2 (adel l k) = alookup k2 l := by
  induction l with
  | nil => rfl
  | cons hd tl ih =>
    obtain ⟨ka, va⟩ := hd
    show alookup k2 (List.filter _ ((ka, va) :: tl)) = _
    rw [List.filter_cons]
    simp only [adel] at ih
    by_cases hk : ka = k
    · rw [if_neg (by simp [hk])]
      rw [alookup_cons, if_neg (by rw [hk]; exact h)]
      exact ih
    · rw [if_pos (by simp [hk])]
      rw [alookup_cons, alookup_cons]
      by_cases hk2 : k2 = ka
      · rw [if_pos hk2, if_pos hk2]
      · rw [if_neg hk2, if_neg hk2]
        exact ih

theorem containsKey_adel_ne {α : Type} (l : List (PyStr × α)) {k k2 : PyStr}
    (h : k2 ≠ k) : containsKey k2 (adel l k) = containsKey k2 l := by
  induction l with
  | nil => rfl
  | cons hd tl ih =>
    obtain ⟨ka, va⟩ := hd
    show containsKey k2 (List.filter _ ((ka, va) :: tl)) = _
    rw [List.filter_cons]
    simp only [adel] at ih
    by_cases hk : ka = k
    · rw [if_neg (by simp [hk])]
      rw [ih, containsKey_cons]
      have : (decide (ka = k2)) = false := by
        simp only [decide_eq_false_iff_not]
        rw [hk]
        exact fun hh => h hh.symm
      rw [this]
      simp
    · rw [if_pos (by simp [hk])]
      rw [containsKey_cons, containsKey_cons, ih]

theorem alookup_none_iff {α : Type} (k : PyStr) (l : List (PyStr × α)) :
    alookup k l = none ↔ ∀ p ∈ l, p.1 ≠ k := by
  induction l with
  | nil => simp [alookup]
  | cons hd tl ih =>
    obtain ⟨ka, va⟩ := hd
    rw [alookup_cons]
    by_cases h : k = ka
    · rw [if_pos h]
      subst h
      constructor
      · intro hh
        exact Option.noConfusion hh
      · intro hall
        exact absurd rfl (hall _ (List.mem_cons_self _ _))
    · rw [if_neg h, ih]
      constructor
      · intro hall p hp
        rcases List.mem_cons.mp hp with hp1 | hp1
        · subst hp1
          exact fun hh => h hh.symm
        · exact hall p hp1
      · intro hall p hp
        exact hall p (List.mem_cons_of_mem _ hp)

theorem aset_of_alookup_none {α : Type} {l : List (PyStr × α)} {k : PyStr} (v : α)
    (h : alookup k l = none) : aset l k v = l ++ [(k, v)] := by
  induction l with
  | nil => rfl
  | cons hd tl ih =>
    obtain ⟨ka, va⟩ := hd
    rw [alookup_cons] at h
    by_cases hk : k = ka
    · rw [if_pos hk] at h
      exact absurd h (by simp)
    · rw [if_neg hk] at h
      rw [aset_cons, if_neg hk, ih h]
      rfl

theorem mem_keys_aset {α : Type} {l : List (PyStr × α)} {k x : PyStr} {v : α}
    (h : x ∈ (aset l k v).map Prod.fst) : x ∈ l.map Prod.fst ∨ x = k := by
  induction l with
  | nil =>
    rcases List.mem_cons.mp (show x ∈ [k] from by simpa [aset] using h) with h2 | h2
    · right
      exact h2
    · exact absurd h2 (by simp)
  | cons hd tl ih =>
    obtain ⟨ka, va⟩ := hd
    rw [aset_cons] at h
    by_cases hk : k = ka
    · rw [if_pos hk] at h
      rw [List.map_cons] at h ⊢
      rcases List.mem_cons.mp h with h | h
      · left
        exact List.mem_cons.mpr (Or.inl h)
      · left
        exact List.mem_cons.mpr (Or.inr h)
    · rw [if_neg hk] at h
      rw [List.map_cons] at h ⊢
      rcases List.mem_cons.mp h with h | h
      · left
        exact List.mem_cons.mpr (Or.inl h)
      · rcases ih h with h2 | h2
        · left
          exact List.mem_cons.mpr (Or.inr h2)
        · right
          exact h2

theorem nodup_keys_aset {α : Type} {l : List (PyStr × α)} (k : PyStr) (v : α)
    (h : (l.map Prod.fst).Nodup) : ((aset l k v).map Prod.fst).Nodup := by
  induction l with
  | nil => simp [aset]
  | cons hd tl ih =>
    obtain ⟨ka, va⟩ := hd
    simp only [List.map_cons, List.nodup_cons] at h
    rw [aset_cons]
    by_cases hk : k = ka
    · rw [if_pos hk]
      simp only [List.map_cons, List.nodup_cons]
      exact ⟨h.1, h.2⟩
    · rw [if_neg hk]
      simp only [List.map_cons, List.nodup_cons]
      refine ⟨?_, ih h.2⟩
      intro hmem
      rcases mem_keys_aset hmem with h2 | h2
      · exact h.1 h2
      · exact hk h2.symm

/-! ## Claim theorems -/

/-- Claim C1 (code bug): for a registered set with an embedded reference,
`build_schema_graph` does not terminate with a graph node at all — the
recursive call sites of `gts2node` read the unbound name `seen` (the
variable in scope is `seen_gts_ids`), so Python raises `NameError`
whenever a graph edge must be followed, instead of returning the node
with cycle stubs that the claim describes. -/
theorem c1_build_schema_graph_raises_name_error :
    fxGraphStore.build_schema_graph (pystr "gts.a.p.n.A.v1") = .error .nameErrorSeen := by
  rfl

/-- Claim C3 (counterexample): both identifiers expose a minor version but
share no type prefix (their single segments differ in every field,
witnessed here by the vendors `a` and `x`), yet `_infer_direction` answers
`up`, not `unknown`. -/
theorem c3_counterexample :
    inferDirection (pystr "gts.a.b.c.D.v1.0") (pystr "gts.x.y.z.W.v1.1") = pystr "up"
    ∧ (mkGtsID (pystr "gts.a.b.c.D.v1.0")).toOption.map
        (fun g => g.gts_id_segments.map (fun sg => sg.vendor)) = some [pystr "a"]
    ∧ (mkGtsID (pystr "gts.x.y.z.W.v1.1")).toOption.map
        (fun g => g.gts_id_segments.map (fun sg => sg.vendor)) = some [pystr "x"]
    ∧ pystr "a" ≠ pystr "x" := by
  refine ⟨rfl, rfl, rfl, by decide⟩

/-- Claim C3 (amended): whenever both identifiers parse and both expose a
minor version on their last segment, the direction is `up`/`down`/`none`
by comparison of the minors alone — the type prefix is not consulted;
`unknown` arises only from a parse failure or a missing minor. -/
theorem c3_direction_ignores_type_prefix
    (f t : PyStr) (gf gt : GtsID) (sf st : GtsIdSegment) (fm tm : Int)
    (hf : mkGtsID f = .ok gf) (ht : mkGtsID t = .ok gt)
    (hsf : gf.gts_id_segments.getLast? = some sf)
    (hst : gt.gts_id_segments.getLast? = some st)
    (hfm : sf.ver_minor = some fm) (htm : st.ver_minor = some tm) :
    inferDirection f t =
      (if tm > fm then pystr "up" else if tm < fm then pystr "down" else pystr "none") := by
  unfold inferDirection
  simp only [hf, ht, hsf, hst, hfm, htm]

/-- Witness for `c3_direction_ignores_type_prefix` at the concrete pair of
identifiers with distinct type prefixes. -/
theorem c3_direction_witness :
    inferDirection (pystr "gts.a.b.c.D.v1.0") (pystr "gts.x.y.z.W.v1.1") =
      (if (1 : Int) > 0 then pystr "up" else if (1 : Int) < 0 then pystr "down" else pystr "none") :=
  c3_direction_ignores_type_prefix
    (pystr "gts.a.b.c.D.v1.0") (pystr "gts.x.y.z.W.v1.1")
    _ _ _ _ 0 1 rfl rfl rfl rfl rfl rfl

theorem jsonSize_pos (j : Json) : 0 < jsonSize j := by
  cases j <;> simp [jsonSize]

theorem c2_counterexample :
    fxMinorStore.is_minor_compatible (pystr "gts.v.p.n.T.v1.0~") (pystr "gts.v.p.n.T.v1.1~") = true
    ∧ sget fxMinorOldSchema (pystr "title") = some (.str (pystr "a"))
    ∧ sget fxMinorNewSchema (pystr "title") = some (.str (pystr "b"))
    ∧ pystr "a" ≠ pystr "b"
    ∧ sget fxMinorOldSchema (pystr "required") = sget fxMinorNewSchema (pystr "required")
    ∧ sget fxMinorOldSchema (pystr "properties") = sget fxMinorNewSchema (pystr "properties") := by
  refine ⟨rfl, rfl, rfl, by decide, rfl, rfl⟩

theorem c2_minor_compatible_ignores_other_keywords
    (s : GtsStore) (oldId newId : PyStr) (oldE newE : JsonEntity)
    (oldKvs newKvs : List (PyStr × Json))
    (h1 : (s.get oldId).1 = some oldE)
    (h2 : (((s.get oldId).2).get newId).1 = some newE)
    (hoc : oldE.content = .obj oldKvs) (hnc : newE.content = .obj newKvs)
    (hreq : jsonSetEq (minorReqSet oldKvs) (minorReqSet newKvs) = true)
    (hprops : ∀ kv ∈ minorProps oldKvs, containsKey kv.1 (minorProps newKvs) = true →
      jsonEq ((alookup kv.1 (minorProps oldKvs)).getD .null)
             ((alookup kv.1 (minorProps newKvs)).getD .null) = true) :
    s.is_minor_compatible oldId newId = true := by
  unfold GtsStore.is_minor_compatible
  simp only [h1, h2, hoc, hnc, hreq, not_true, if_neg, ite_false]
  rw [List.all_eq_true]
  intro kv hkv
  by_cases hc : containsKey kv.1 (minorProps newKvs) = true
  · rw [if_pos hc]
    exact hprops kv hkv hc
  · rw [if_neg hc]

theorem c2_minor_witness :
    fxMinorStore.is_minor_compatible (pystr "gts.v.p.n.T.v1.0~") (pystr "gts.v.p.n.T.v1.1~") = true :=
  c2_minor_compatible_ignores_other_keywords fxMinorStore
    (pystr "gts.v.p.n.T.v1.0~") (pystr "gts.v.p.n.T.v1.1~")
    { content := fxMinorOldSchema } { content := fxMinorNewSchema } _ _
    rfl rfl rfl rfl rfl
    (fun kv hkv _ => absurd hkv (List.not_mem_nil kv))

theorem c4_counterexample :
    (JsonEntityCastResult.cast (pystr "gts.a.b.c.D.v1") (pystr "gts.a.b.c.D.v2~")
      (.str (pystr "hello")) (.obj [])).fully_compatible = true
    ∧ (JsonEntityCastResult.cast (pystr "gts.a.b.c.D.v1") (pystr "gts.a.b.c.D.v2~")
      (.str (pystr "hello")) (.obj [])).casted_instance = some (.obj [])
    ∧ (JsonEntityCastResult.cast (pystr "gts.a.b.c.D.v1") (pystr "gts.a.b.c.D.v2~")
      (.str (pystr "hello")) (.obj [])).incompatibility_reasons = [] := by
  refine ⟨rfl, rfl, rfl⟩

theorem c4_cast_substitutes_empty_object :
    (∀ fid tid c sch, isObjJson c = false →
       JsonEntityCastResult.cast fid tid c sch =
         JsonEntityCastResult.cast fid tid (.obj []) sch)
    ∧ (∀ inst sch bp, isObjJson inst = false →
       castInstanceToSchema inst sch bp =
         .error (pystr "Instance must be an object for casting")) := by
  constructor
  · intro fid tid c sch h
    cases c with
    | obj kvs => simp [isObjJson] at h
    | null => rfl
    | bool b => rfl
    | num n => rfl
    | str s => rfl
    | arr xs => rfl
  · intro inst sch bp h
    obtain ⟨m, hm⟩ : ∃ m, jsonSize sch = m + 1 :=
      ⟨jsonSize sch - 1, by have := jsonSize_pos sch; omega⟩
    unfold castInstanceToSchema
    rw [hm]
    cases inst with
    | obj kvs => simp [isObjJson] at h
    | null => rfl
    | bool b => rfl
    | num n => rfl
    | str s => rfl
    | arr xs => rfl

theorem c4_witness :
    JsonEntityCastResult.cast (pystr "gts.i.j.k.L.v1") (pystr "gts.i.j.k.L.v2~")
      (.num 5) (.obj [])
      = JsonEntityCastResult.cast (pystr "gts.i.j.k.L.v1") (pystr "gts.i.j.k.L.v2~")
      (.obj []) (.obj [])
    ∧ castInstanceToSchema (.num 5) (.obj []) []
      = .error (pystr "Instance must be an object for casting") :=
  ⟨c4_cast_substitutes_empty_object.1 (pystr "gts.i.j.k.L.v1") (pystr "gts.i.j.k.L.v2~")
      (.num 5) (.obj []) rfl,
   c4_cast_substitutes_empty_object.2 (.num 5) (.obj []) [] rfl⟩

theorem c7_register_replaces_and_requires_id :
    (∀ (s : GtsStore) (e e2 : JsonEntity) (g g2 : GtsID),
      e.gts_id = some g → g.id ≠ [] → e2.gts_id = some g2 → g2.id = g.id →
      ∃ s1, s.register e = .ok s1 ∧ (s1.get g.id).1 = some e ∧
        ∃ s2, s1.register e2 = .ok s2 ∧ (s2.get g.id).1 = some e2 ∧
          ((s.by_id.map Prod.fst).Nodup →
            (s1.by_id.map Prod.fst).Nodup ∧ (s2.by_id.map Prod.fst).Nodup))
    ∧ (∀ (s : GtsStore) (e : JsonEntity), e.gts_id = none →
        s.register e = .error (pystr "Entity must have a valid gts_id")) := by
  constructor
  · intro s e e2 g g2 h hne h2 heq
    refine ⟨{ s with by_id := aset s.by_id g.id e }, ?_, ?_, ?_⟩
    · simp only [GtsStore.register, h]
      rw [if_neg hne]
    · simp only [GtsStore.get, alookup_aset_self]
    · refine ⟨{ s with by_id := aset (aset s.by_id g.id e) g2.id e2 }, ?_, ?_, ?_⟩
      · simp only [GtsStore.register, h2]
        rw [if_neg (heq ▸ hne)]
      · simp only [GtsStore.get, heq, alookup_aset_self]
      · intro hnd
        refine ⟨nodup_keys_aset _ _ hnd, nodup_keys_aset _ _ (nodup_keys_aset _ _ hnd)⟩
  · intro s e h
    simp only [GtsStore.register, h]

theorem c7_witness :
    ∃ s1, (GtsStore.mk [] none).register
        { gts_id := (mkGtsID (pystr "gts.q.r.s.T.v1")).toOption, content := .num 1 } = .ok s1
      ∧ (s1.get (pystr "gts.q.r.s.T.v1")).1 =
          some { gts_id := (mkGtsID (pystr "gts.q.r.s.T.v1")).toOption, content := .num 1 }
      ∧ ∃ s2, s1.register
            { gts_id := (mkGtsID (pystr "gts.q.r.s.T.v1")).toOption, content := .num 2 } = .ok s2
        ∧ (s2.get (pystr "gts.q.r.s.T.v1")).1 =
            some { gts_id := (mkGtsID (pystr "gts.q.r.s.T.v1")).toOption, content := .num 2 }
        ∧ (((GtsStore.mk [] none).by_id.map Prod.fst).Nodup →
            (s1.by_id.map Prod.fst).Nodup ∧ (s2.by_id.map Prod.fst).Nodup) := by
  have h := c7_register_replaces_and_requires_id.1 (GtsStore.mk [] none)
    { gts_id := (mkGtsID (pystr "gts.q.r.s.T.v1")).toOption, content := .num 1 }
    { gts_id := (mkGtsID (pystr "gts.q.r.s.T.v1")).toOption, content := .num 2 }
    ((mkGtsID (pystr "gts.q.r.s.T.v1")).toOption.getD ⟨[], []⟩)
    ((mkGtsID (pystr "gts.q.r.s.T.v1")).toOption.getD ⟨[], []⟩)
    rfl (by decide) rfl rfl
  exact h

theorem c10_file_reader_never_satisfies_miss :
    (∀ id, gtsFileReaderReadById id = none)
    ∧ (∀ (cache : List (PyStr × JsonEntity)) (id : PyStr), alookup id cache = none →
        (GtsStore.mk cache (some gtsFileReader)).get id =
          (none, GtsStore.mk cache (some gtsFileReader)))
    ∧ (∀ (cache : List (PyStr × JsonEntity)) (id : PyStr) (e : JsonEntity),
        ((GtsStore.mk cache (some gtsFileReader)).get id).1 = some e →
        alookup id cache = some e) := by
  refine ⟨fun _ => rfl, ?_, ?_⟩
  · intro cache id h
    simp only [GtsStore.get, h]
    rfl
  · intro cache id e h
    unfold GtsStore.get at h
    cases hl : alookup id cache with
    | some e2 =>
      rw [hl] at h
      simpa using h
    | none =>
      rw [hl] at h
      simp [gtsFileReader, gtsFileReaderReadById] at h

theorem c10_witness :
    (GtsStore.mk [] (some gtsFileReader)).get (pystr "gts.a.b.c.D.v1") =
      (none, GtsStore.mk [] (some gtsFileReader)) :=
  c10_file_reader_never_satisfies_miss.2.1 [] (pystr "gts.a.b.c.D.v1") rfl

/-! ## Cast-engine lemmas (claim C8) -/
theorem alookup_some_containsKey {α : Type} {l : List (PyStr × α)} {k : PyStr} {v : α}
    (h : alookup k l = some v) : containsKey k l = true := by
  induction l with
  | nil => exact absurd h (by simp [alookup])
  | cons hd tl ih =>
    obtain ⟨ka, va⟩ := hd
    rw [alookup_cons] at h
    rw [containsKey_cons]
    by_cases hk : k = ka
    · simp [hk]
    · rw [if_neg hk] at h
      simp [ih h]

theorem alookup_eq_of_mem_nodup {α : Type} {l : List (PyStr × α)} {k : PyStr} {v : α}
    (hnd : (l.map Prod.fst).Nodup) (h : (k, v) ∈ l) : alookup k l = some v := by
  induction l with
  | nil => exact absurd h (List.not_mem_nil _)
  | cons hd tl ih =>
    obtain ⟨ka, va⟩ := hd
    rw [List.map_cons, List.nodup_cons] at hnd
    rw [alookup_cons]
    rcases List.mem_cons.mp h with h1 | h1
    · obtain ⟨hk, hv⟩ := Prod.mk.injEq .. ▸ h1
      rw [if_pos (by rw [hk])]
      rw [hv]
    · by_cases hk : k = ka
      · exfalso
        apply hnd.1
        rw [← hk]
        exact List.mem_map.mpr ⟨(k, v), h1, rfl⟩
      · rw [if_neg hk]
        exact ih hnd.2 h1

theorem jsonEqF_str_right {k : PyStr} :
    ∀ (fuel : Nat) (y : Json), jsonEqF fuel y (.str k) = true → y = .str k := by
  intro fuel y h
  cases fuel with
  | zero => exact absurd h (by simp [jsonEqF])
  | succ n =>
    cases y <;> simp [jsonEqF] at h
    rw [h]

theorem jsonEq_str_right {k : PyStr} {y : Json} (h : jsonEq y (.str k) = true) :
    y = .str k := jsonEqF_str_right _ y h

theorem mem_jsonDedupGo_str {k : PyStr} :
    ∀ (l seen : List Json), (.str k) ∈ l →
      (∃ y ∈ seen, jsonEq y (.str k) = true) ∨ (.str k) ∈ jsonDedupGo seen l := by
  intro l
  induction l with
  | nil => intro seen h; exact absurd h (List.not_mem_nil _)
  | cons x xs ih =>
    intro seen h
    by_cases hs : (seen.any (fun y => jsonEq y x)) = true
    · rw [show jsonDedupGo seen (x :: xs) = jsonDedupGo seen xs from by
        simp only [jsonDedupGo]; rw [if_pos hs]]
      rcases List.mem_cons.mp h with h1 | h1
      · subst h1
        left
        rcases List.any_eq_true.mp hs with ⟨y, hy, hyx⟩
        exact ⟨y, hy, hyx⟩
      · exact ih seen h1
    · rw [show jsonDedupGo seen (x :: xs) = x :: jsonDedupGo (seen ++ [x]) xs from by
        simp only [jsonDedupGo]; rw [if_neg hs]]
      rcases List.mem_cons.mp h with h1 | h1
      · subst h1
        right
        exact List.mem_cons_self _ _
      · rcases ih (seen ++ [x]) h1 with h2 | h2
        · rcases h2 with ⟨y, hy, hyk⟩
          rcases List.mem_append.mp hy with hy1 | hy1
          · left
            exact ⟨y, hy1, hyk⟩
          · right
            have hx : x = .str k := by
              have hyx2 : y = x := by simpa using hy1
              rw [← hyx2]
              exact jsonEq_str_right hyk
            rw [hx]
            exact List.mem_cons_self _ _
        · right
          exact List.mem_cons_of_mem _ h2

theorem mem_jsonDedup_str {k : PyStr} {l : List Json} (h : (.str k) ∈ l) :
    (.str k) ∈ jsonDedup l := by
  rcases mem_jsonDedupGo_str l [] h with h1 | h1
  · rcases h1 with ⟨y, hy, _⟩
    exact absurd hy (List.not_mem_nil _)
  · exact h1

theorem castPhase1_nil (tp : List (PyStr × Json)) (bp : PyStr)
    (result : List (PyStr × Json)) (added : List PyStr) :
    castPhase1 tp bp [] result added = .ok (result, added) := rfl

theorem castPhase1_cons_str_skip {tp : List (PyStr × Json)} {bp k : PyStr}
    {rest : List Json} {result : List (PyStr × Json)} {added : List PyStr}
    (h : containsKey k result = true) :
    castPhase1 tp bp (.str k :: rest) result added = castPhase1 tp bp rest result added := by
  simp only [castPhase1, jsonKeyStr]
  rw [if_pos (by simp [h])]

theorem castPhase1_cons_str_insert {tp : List (PyStr × Json)} {bp k : PyStr}
    {rest : List Json} {result : List (PyStr × Json)} {added : List PyStr}
    {pkvs : List (PyStr × Json)} {d : Json}
    (hc : containsKey k result = false)
    (hps : (alookup k tp).getD (.obj []) = .obj pkvs)
    (hd : alookup (pystr "default") pkvs = some d) :
    castPhase1 tp bp (.str k :: rest) result added =
      castPhase1 tp bp rest (aset result k d) (added ++ [dottedPath bp k]) := by
  simp only [castPhase1, jsonKeyStr]
  rw [if_neg (by simp [hc])]
  simp only [ite_true, hps, hd]

theorem castPhase1_cons_str_missing {tp : List (PyStr × Json)} {bp k : PyStr}
    {rest : List Json} {result : List (PyStr × Json)} {added : List PyStr}
    (hc : containsKey k result = false)
    (hnd : hasDefault ((alookup k tp).getD (.obj [])) = false) :
    castPhase1 tp bp (.str k :: rest) result added =
      .error (missingRequiredMsg (dottedPath bp k)) := by
  simp only [castPhase1, jsonKeyStr]
  rw [if_neg (by simp [hc])]
  simp only [ite_true]
  cases hps : (alookup k tp).getD (.obj []) with
  | obj pkvs =>
    rw [hps] at hnd
    simp only [hasDefault] at hnd
    cases hdef : alookup (pystr "default") pkvs with
    | some d => rw [hdef] at hnd; simp at hnd
    | none => simp only [hdef]
  | null => rfl
  | bool b => rfl
  | num n => rfl
  | str s => rfl
  | arr xs => rfl

theorem castPhase1_cons_nonstr {tp : List (PyStr × Json)} {bp : PyStr}
    {p : Json} {rest : List Json} {result : List (PyStr × Json)} {added : List PyStr}
    (h : ∀ s, p ≠ .str s) :
    castPhase1 tp bp (p :: rest) result added =
      .error (missingRequiredMsg (dottedPath bp (jsonKeyStr p))) := by
  cases p with
  | str s => exact absurd rfl (h s)
  | null => rfl
  | bool b => rfl
  | num n => rfl
  | arr xs => rfl
  | obj kvs => rfl
theorem castPhase1_missing_error (targetProps : List (PyStr × Json)) (basePath : PyStr) :
    ∀ (req : List Json) (result : List (PyStr × Json)) (added : List PyStr) (k : PyStr),
      (.str k) ∈ req → containsKey k result = false →
      hasDefault ((alookup k targetProps).getD (.obj [])) = false →
      ∃ e, castPhase1 targetProps basePath req result added = .error e := by
  intro req
  induction req with
  | nil => intro result added k h; exact absurd h (List.not_mem_nil _)
  | cons p rest ih =>
    intro result added k hmem hck hnd
    by_cases hp : p = Json.str k
    · subst hp
      exact ⟨_, castPhase1_cons_str_missing hck hnd⟩
    · have hmem2 : Json.str k ∈ rest := by
        rcases List.mem_cons.mp hmem with h1 | h1
        · exact absurd h1.symm hp
        · exact h1
      cases p with
      | str kp =>
        have hkpk : kp ≠ k := fun hh => hp (by rw [hh])
        by_cases hckp : containsKey kp result = true
        · rw [castPhase1_cons_str_skip hckp]
          exact ih result added k hmem2 hck hnd
        · cases hps : (alookup kp targetProps).getD (.obj []) with
          | obj pkvs =>
            cases hdef : alookup (pystr "default") pkvs with
            | some d =>
              rw [castPhase1_cons_str_insert (by simpa using hckp) hps hdef]
              refine ih _ _ k hmem2 ?_ hnd
              rw [containsKey_aset_ne _ _ (fun hh => hkpk hh.symm)]
              exact hck
            | none =>
              refine ⟨_, castPhase1_cons_str_missing (by simpa using hckp) ?_⟩
              rw [hps]
              simp [hasDefault, hdef]
          | null =>
            exact ⟨_, castPhase1_cons_str_missing (by simpa using hckp) (by rw [hps]; rfl)⟩
          | bool b =>
            exact ⟨_, castPhase1_cons_str_missing (by simpa using hckp) (by rw [hps]; rfl)⟩
          | num n =>
            exact ⟨_, castPhase1_cons_str_missing (by simpa using hckp) (by rw [hps]; rfl)⟩
          | str s =>
            exact ⟨_, castPhase1_cons_str_missing (by simpa using hckp) (by rw [hps]; rfl)⟩
          | arr xs =>
            exact ⟨_, castPhase1_cons_str_missing (by simpa using hckp) (by rw [hps]; rfl)⟩
      | null => exact ⟨_, castPhase1_cons_nonstr (fun s => by simp)⟩
      | bool b => exact ⟨_, castPhase1_cons_nonstr (fun s => by simp)⟩
      | num n => exact ⟨_, castPhase1_cons_nonstr (fun s => by simp)⟩
      | arr xs => exact ⟨_, castPhase1_cons_nonstr (fun s => by simp)⟩
      | obj kvs => exact ⟨_, castPhase1_cons_nonstr (fun s => by simp)⟩

theorem castPhase1_preserves (targetProps : List (PyStr × Json)) (basePath : PyStr) :
    ∀ (req : List Json) (result : List (PyStr × Json)) (added : List PyStr)
      (k : PyStr) (v : Json) (r1 : List (PyStr × Json)) (a1 : List PyStr),
      alookup k result = some v →
      castPhase1 targetProps basePath req result added = .ok (r1, a1) →
      alookup k r1 = some v ∧ ∃ suff, a1 = added ++ suff := by
  intro req
  induction req with
  | nil =>
    intro result added k v r1 a1 hv h
    rw [castPhase1_nil] at h
    obtain ⟨h1, h2⟩ := by
      have := Except.ok.injEq .. ▸ h
      exact Prod.mk.injEq .. ▸ this
    rw [← h1, ← h2]
    exact ⟨hv, [], by simp⟩
  | cons p rest ih =>
    intro result added k v r1 a1 hv h
    cases p with
    | str kp =>
      by_cases hckp : containsKey kp result = true
      · rw [castPhase1_cons_str_skip hckp] at h
        exact ih result added k v r1 a1 hv h
      · have hkpk : kp ≠ k := by
          intro hh
          subst hh
          exact hckp (alookup_some_containsKey hv)
        cases hps : (alookup kp targetProps).getD (.obj []) with
        | obj pkvs =>
          cases hdef : alookup (pystr "default") pkvs with
          | some d =>
            rw [castPhase1_cons_str_insert (by simpa using hckp) hps hdef] at h
            have hv2 : alookup k (aset result kp d) = some v := by
              rw [alookup_aset_ne _ _ (fun hh => hkpk hh.symm)]
              exact hv
            obtain ⟨ha, suff, hsuff⟩ := ih _ _ k v r1 a1 hv2 h
            exact ⟨ha, dottedPath basePath kp :: suff, by simp [hsuff]⟩
          | none =>
            rw [castPhase1_cons_str_missing (by simpa using hckp)
              (by rw [hps]; simp [hasDefault, hdef])] at h
            exact absurd h (by simp)
        | null =>
          rw [castPhase1_cons_str_missing (by simpa using hckp) (by rw [hps]; rfl)] at h
          exact absurd h (by simp)
        | bool b =>
          rw [castPhase1_cons_str_missing (by simpa using hckp) (by rw [hps]; rfl)] at h
          exact absurd h (by simp)
        | num n =>
          rw [castPhase1_cons_str_missing (by simpa using hckp) (by rw [hps]; rfl)] at h
          exact absurd h (by simp)
        | str s =>
          rw [castPhase1_cons_str_missing (by simpa using hckp) (by rw [hps]; rfl)] at h
          exact absurd h (by simp)
        | arr xs =>
          rw [castPhase1_cons_str_missing (by simpa using hckp) (by rw [hps]; rfl)] at h
          exact absurd h (by simp)
    | null =>
      rw [castPhase1_cons_nonstr (fun s => by simp)] at h
      exact absurd h (by simp)
    | bool b =>
      rw [castPhase1_cons_nonstr (fun s => by simp)] at h
      exact absurd h (by simp)
    | num n =>
      rw [castPhase1_cons_nonstr (fun s => by simp)] at h
      exact absurd h (by simp)
    | arr xs =>
      rw [castPhase1_cons_nonstr (fun s => by simp)] at h
      exact absurd h (by simp)
    | obj kvs =>
      rw [castPhase1_cons_nonstr (fun s => by simp)] at h
      exact absurd h (by simp)
theorem castPhase1_inserts (targetProps : List (PyStr × Json)) (basePath : PyStr) :
    ∀ (req : List Json) (result : List (PyStr × Json)) (added : List PyStr)
      (k : PyStr) (pkvs : List (PyStr × Json)) (d : Json)
      (r1 : List (PyStr × Json)) (a1 : List PyStr),
      (.str k) ∈ req → containsKey k result = false →
      alookup k targetProps = some (.obj pkvs) →
      alookup (pystr "default") pkvs = some d →
      castPhase1 targetProps basePath req result added = .ok (r1, a1) →
      alookup k r1 = some d ∧ (dottedPath basePath k) ∈ a1 := by
  intro req
  induction req with
  | nil => intro _ _ k _ _ _ _ hmem; exact absurd hmem (List.not_mem_nil _)
  | cons p rest ih =>
    intro result added k pkvs d r1 a1 hmem hck hkp hdef h
    by_cases hp : p = Json.str k
    · subst hp
      rw [castPhase1_cons_str_insert hck (by rw [hkp]; rfl) hdef] at h
      obtain ⟨ha, suff, hsuff⟩ := castPhase1_preserves targetProps basePath rest _ _ k d r1 a1
        (alookup_aset_self _ _ _) h
      refine ⟨ha, ?_⟩
      rw [hsuff]
      simp
    · have hmem2 : Json.str k ∈ rest := by
        rcases List.mem_cons.mp hmem with h1 | h1
        · exact absurd h1.symm hp
        · exact h1
      cases p with
      | str kp =>
        have hkpk : kp ≠ k := fun hh => hp (by rw [hh])
        by_cases hckp : containsKey kp result = true
        · rw [castPhase1_cons_str_skip hckp] at h
          exact ih result added k pkvs d r1 a1 hmem2 hck hkp hdef h
        · cases hps : (alookup kp targetProps).getD (.obj []) with
          | obj pkvs2 =>
            cases hdef2 : alookup (pystr "default") pkvs2 with
            | some d2 =>
              rw [castPhase1_cons_str_insert (by simpa using hckp) hps hdef2] at h
              refine ih _ _ k pkvs d r1 a1 hmem2 ?_ hkp hdef h
              rw [containsKey_aset_ne _ _ (fun hh => hkpk hh.symm)]
              exact hck
            | none =>
              rw [castPhase1_cons_str_missing (by simpa using hckp)
                (by rw [hps]; simp [hasDefault, hdef2])] at h
              exact absurd h (by simp)
          | null =>
            rw [castPhase1_cons_str_missing (by simpa using hckp) (by rw [hps]; rfl)] at h
            exact absurd h (by simp)
          | bool b =>
            rw [castPhase1_cons_str_missing (by simpa using hckp) (by rw [hps]; rfl)] at h
            exact absurd h (by simp)
          | num n =>
            rw [castPhase1_cons_str_missing (by simpa using hckp) (by rw [hps]; rfl)] at h
            exact absurd h (by simp)
          | str s =>
            rw [castPhase1_cons_str_missing (by simpa using hckp) (by rw [hps]; rfl)] at h
            exact absurd h (by simp)
          | arr xs =>
            rw [castPhase1_cons_str_missing (by simpa using hckp) (by rw [hps]; rfl)] at h
            exact absurd h (by simp)
      | null =>
        rw [castPhase1_cons_nonstr (fun s => by simp)] at h
        exact absurd h (by simp)
      | bool b =>
        rw [castPhase1_cons_nonstr (fun s => by simp)] at h
        exact absurd h (by simp)
      | num n =>
        rw [castPhase1_cons_nonstr (fun s => by simp)] at h
        exact absurd h (by simp)
      | arr xs =>
        rw [castPhase1_cons_nonstr (fun s => by simp)] at h
        exact absurd h (by simp)
      | obj kvs =>
        rw [castPhase1_cons_nonstr (fun s => by simp)] at h
        exact absurd h (by simp)

theorem castPhase2_cons (bp : PyStr) (requiredL : List Json) (prop : PyStr)
    (pSchema : Json) (rest : List (PyStr × Json)) (result : List (PyStr × Json))
    (added : List PyStr) :
    castPhase2 bp requiredL ((prop, pSchema) :: rest) result added =
      if (requiredL.any (fun r => jsonEq r (.str prop))) = true then
        castPhase2 bp requiredL rest result added
      else if containsKey prop result = true then
        castPhase2 bp requiredL rest result added
      else
        match pSchema with
        | .obj pkvs =>
          match alookup (pystr "default") pkvs with
          | some d => castPhase2 bp requiredL rest (aset result prop d)
              (added ++ [dottedPath bp prop])
          | none => castPhase2 bp requiredL rest result added
        | _ => castPhase2 bp requiredL rest result added := by
  by_cases h1 : (requiredL.any (fun r => jsonEq r (.str prop))) = true
  · simp only [castPhase2]
    rw [if_pos h1, if_pos h1]
  · by_cases h2 : containsKey prop result = true
    · simp only [castPhase2]
      rw [if_neg h1, if_neg h1, if_neg (by simp [h2]), if_pos h2]
    · simp only [castPhase2]
      rw [if_neg h1, if_neg h1, if_pos (by simp [h2]), if_neg h2]

theorem castPhase2_preserves (basePath : PyStr) (requiredL : List Json) :
    ∀ (props : List (PyStr × Json)) (result : List (PyStr × Json)) (added : List PyStr)
      (k : PyStr) (v : Json),
      alookup k result = some v →
      alookup k (castPhase2 basePath requiredL props result added).1 = some v ∧
      ∃ suff, (castPhase2 basePath requiredL props result added).2 = added ++ suff := by
  intro props
  induction props with
  | nil =>
    intro result added k v hv
    exact ⟨hv, [], by simp [castPhase2]⟩
  | cons hd rest ih =>
    intro result added k v hv
    obtain ⟨prop, pSchema⟩ := hd
    rw [castPhase2_cons]
    by_cases h1 : (requiredL.any (fun r => jsonEq r (.str prop))) = true
    · rw [if_pos h1]
      exact ih result added k v hv
    · rw [if_neg h1]
      by_cases h2 : containsKey prop result = true
      · rw [if_pos h2]
        exact ih result added k v hv
      · rw [if_neg h2]
        have hpk : prop ≠ k := by
          intro hh
          subst hh
          exact h2 (alookup_some_containsKey hv)
        cases pSchema with
        | obj pkvs =>
          cases hdef : alookup (pystr "default") pkvs with
          | some d =>
            simp only [hdef]
            have hv2 : alookup k (aset result prop d) = some v := by
              rw [alookup_aset_ne _ _ (fun hh => hpk hh.symm)]
              exact hv
            obtain ⟨ha, suff, hsuff⟩ := ih _ _ k v hv2
            exact ⟨ha, dottedPath basePath prop :: suff, by simp [hsuff]⟩
          | none =>
            simp only [hdef]
            exact ih result added k v hv
        | null => exact ih result added k v hv
        | bool b => exact ih result added k v hv
        | num n => exact ih result added k v hv
        | str s => exact ih result added k v hv
        | arr xs => exact ih result added k v hv
theorem castPhase3_preserves (targetProps : List (PyStr × Json)) (basePath : PyStr) :
    ∀ (snapshot : List PyStr) (result : List (PyStr × Json)) (removed : List PyStr)
      (k : PyStr) (v : Json),
      alookup k result = some v → containsKey k targetProps = true →
      alookup k (castPhase3 targetProps basePath snapshot result removed).1 = some v := by
  intro snapshot
  induction snapshot with
  | nil => intro result removed k v hv _; exact hv
  | cons j rest ih =>
    intro result removed k v hv hk
    by_cases hj : containsKey j targetProps = true
    · rw [show castPhase3 targetProps basePath (j :: rest) result removed =
          castPhase3 targetProps basePath rest result removed from by
        simp only [castPhase3]; rw [if_pos hj]]
      exact ih result removed k v hv hk
    · have hjk : k ≠ j := by
        intro hh
        rw [hh] at hk
        exact hj hk
      rw [show castPhase3 targetProps basePath (j :: rest) result removed =
          castPhase3 targetProps basePath rest (adel result j)
            (removed ++ [dottedPath basePath j]) from by
        simp only [castPhase3]; rw [if_neg hj]]
      refine ih _ _ k v ?_ hk
      rw [alookup_adel_ne _ hjk]
      exact hv

theorem castItemsGo_added_mono
    (recurse : Json → Json → PyStr → Except PyStr (Json × List PyStr × List PyStr))
    (childBase : PyStr) (nested : Json) :
    ∀ (items : List Json) (idx : Nat) (acc : List Json)
      (added removed : List PyStr) (nl : List Json) (a2 r2 : List PyStr),
      castItemsGo recurse childBase nested items idx acc added removed = .ok (nl, a2, r2) →
      ∃ suff, a2 = added ++ suff := by
  intro items
  induction items with
  | nil =>
    intro idx acc added removed nl a2 r2 h
    simp only [castItemsGo, Except.ok.injEq, Prod.mk.injEq] at h
    exact ⟨[], by rw [← h.2.1]; simp⟩
  | cons item rest ih =>
    intro idx acc added removed nl a2 r2 h
    cases item with
    | obj ikvs =>
      simp only [castItemsGo] at h
      cases hr : recurse (.obj ikvs) nested
          (childBase ++ '[' :: (Nat.repr idx).data ++ [ ']' ]) with
      | error e => rw [hr] at h; exact absurd h (by simp)
      | ok triple =>
        obtain ⟨newItem, aS, rS⟩ := triple
        rw [hr] at h
        obtain ⟨suff, hsuff⟩ := ih _ _ _ _ _ _ _ h
        exact ⟨aS ++ suff, by rw [hsuff]; simp⟩
    | null =>
      simp only [castItemsGo] at h
      exact ih _ _ _ _ _ _ _ h
    | bool b =>
      simp only [castItemsGo] at h
      exact ih _ _ _ _ _ _ _ h
    | num n =>
      simp only [castItemsGo] at h
      exact ih _ _ _ _ _ _ _ h
    | str s =>
      simp only [castItemsGo] at h
      exact ih _ _ _ _ _ _ _ h
    | arr xs =>
      simp only [castItemsGo] at h
      exact ih _ _ _ _ _ _ _ h
theorem castPhase4Go_cons_notfound
    {recurse : Json → Json → PyStr → Except PyStr (Json × List PyStr × List PyStr)}
    {basePath prop : PyStr} {pSchema : Json}
    {rest result : List (PyStr × Json)} {added removed : List PyStr}
    (hl : alookup prop result = none) :
    castPhase4Go recurse basePath ((prop, pSchema) :: rest) result added removed =
      castPhase4Go recurse basePath rest result added removed := by
  simp only [castPhase4Go, hl]

theorem castPhase4Go_cons_nonobj_schema
    {recurse : Json → Json → PyStr → Except PyStr (Json × List PyStr × List PyStr)}
    {basePath prop : PyStr} {pSchema val : Json}
    {rest result : List (PyStr × Json)} {added removed : List PyStr}
    (hl : alookup prop result = some val)
    (hno : ∀ kvs, pSchema ≠ .obj kvs) :
    castPhase4Go recurse basePath ((prop, pSchema) :: rest) result added removed =
      castPhase4Go recurse basePath rest result added removed := by
  cases pSchema with
  | obj kvs => exact absurd rfl (hno kvs)
  | null => simp only [castPhase4Go, hl]
  | bool b => simp only [castPhase4Go, hl]
  | num n => simp only [castPhase4Go, hl]
  | str s => simp only [castPhase4Go, hl]
  | arr xs => simp only [castPhase4Go, hl]

theorem castPhase4Go_cons_skip_obj
    {recurse : Json → Json → PyStr → Except PyStr (Json × List PyStr × List PyStr)}
    {basePath prop : PyStr} {pkvs : List (PyStr × Json)} {val : Json}
    {rest result : List (PyStr × Json)} {added removed : List PyStr}
    (hl : alookup prop result = some val)
    (hobj : optIsStr (alookup (pystr "type") pkvs) (pystr "object") = false)
    (harr : optIsStr (alookup (pystr "type") pkvs) (pystr "array") = false) :
    castPhase4Go recurse basePath ((prop, .obj pkvs) :: rest) result added removed =
      castPhase4Go recurse basePath rest result added removed := by
  simp only [castPhase4Go, hl, hobj, harr, Bool.false_eq_true, ite_false]

theorem castPhase4Go_cons_obj_nonobj_val
    {recurse : Json → Json → PyStr → Except PyStr (Json × List PyStr × List PyStr)}
    {basePath prop : PyStr} {pkvs : List (PyStr × Json)} {val : Json}
    {rest result : List (PyStr × Json)} {added removed : List PyStr}
    (hl : alookup prop result = some val)
    (hobj : optIsStr (alookup (pystr "type") pkvs) (pystr "object") = true)
    (hnv : ∀ kvs, val ≠ .obj kvs) :
    castPhase4Go recurse basePath ((prop, .obj pkvs) :: rest) result added removed =
      castPhase4Go recurse basePath rest result added removed := by
  cases val with
  | obj kvs => exact absurd rfl (hnv kvs)
  | null => simp only [castPhase4Go, hl, hobj, ite_true]
  | bool b => simp only [castPhase4Go, hl, hobj, ite_true]
  | num n => simp only [castPhase4Go, hl, hobj, ite_true]
  | str s => simp only [castPhase4Go, hl, hobj, ite_true]
  | arr xs => simp only [castPhase4Go, hl, hobj, ite_true]

theorem castPhase4Go_cons_obj_recurse
    {recurse : Json → Json → PyStr → Except PyStr (Json × List PyStr × List PyStr)}
    {basePath prop : PyStr} {pkvs vkvs : List (PyStr × Json)}
    {rest result : List (PyStr × Json)} {added removed : List PyStr}
    {newObj : Json} {addSub remSub : List PyStr}
    (hl : alookup prop result = some (.obj vkvs))
    (hobj : optIsStr (alookup (pystr "type") pkvs) (pystr "object") = true)
    (hr : recurse (.obj vkvs) (effectiveObjectSchema (.obj pkvs)) (dottedPath basePath prop)
        = .ok (newObj, addSub, remSub)) :
    castPhase4Go recurse basePath ((prop, .obj pkvs) :: rest) result added removed =
      castPhase4Go recurse basePath rest (aset result prop newObj)
        (added ++ addSub) (removed ++ remSub) := by
  simp only [castPhase4Go, hl, hobj, hr, ite_true]

theorem castPhase4Go_cons_obj_recurse_err
    {recurse : Json → Json → PyStr → Except PyStr (Json × List PyStr × List PyStr)}
    {basePath prop : PyStr} {pkvs vkvs : List (PyStr × Json)}
    {rest result : List (PyStr × Json)} {added removed : List PyStr} {e : PyStr}
    (hl : alookup prop result = some (.obj vkvs))
    (hobj : optIsStr (alookup (pystr "type") pkvs) (pystr "object") = true)
    (hr : recurse (.obj vkvs) (effectiveObjectSchema (.obj pkvs)) (dottedPath basePath prop)
        = .error e) :
    castPhase4Go recurse basePath ((prop, .obj pkvs) :: rest) result added removed = .error e := by
  simp only [castPhase4Go, hl, hobj, hr, ite_true]

theorem castPhase4Go_cons_arr_nonarr_val
    {recurse : Json → Json → PyStr → Except PyStr (Json × List PyStr × List PyStr)}
    {basePath prop : PyStr} {pkvs : List (PyStr × Json)} {val : Json}
    {rest result : List (PyStr × Json)} {added removed : List PyStr}
    (hl : alookup prop result = some val)
    (hobj : optIsStr (alookup (pystr "type") pkvs) (pystr "object") = false)
    (harr : optIsStr (alookup (pystr "type") pkvs) (pystr "array") = true)
    (hnv : ∀ xs, val ≠ .arr xs) :
    castPhase4Go recurse basePath ((prop, .obj pkvs) :: rest) result added removed =
      castPhase4Go recurse basePath rest result added removed := by
  cases val with
  | arr xs => exact absurd rfl (hnv xs)
  | null => simp only [castPhase4Go, hl, hobj, harr, Bool.false_eq_true, ite_false, ite_true]
  | bool b => simp only [castPhase4Go, hl, hobj, harr, Bool.false_eq_true, ite_false, ite_true]
  | num n => simp only [castPhase4Go, hl, hobj, harr, Bool.false_eq_true, ite_false, ite_true]
  | str s => simp only [castPhase4Go, hl, hobj, harr, Bool.false_eq_true, ite_false, ite_true]
  | obj kvs => simp only [castPhase4Go, hl, hobj, harr, Bool.false_eq_true, ite_false, ite_true]

theorem castPhase4Go_cons_arr_no_items
    {recurse : Json → Json → PyStr → Except PyStr (Json × List PyStr × List PyStr)}
    {basePath prop : PyStr} {pkvs : List (PyStr × Json)} {items : List Json}
    {rest result : List (PyStr × Json)} {added removed : List PyStr}
    (hl : alookup prop result = some (.arr items))
    (hobj : optIsStr (alookup (pystr "type") pkvs) (pystr "object") = false)
    (harr : optIsStr (alookup (pystr "type") pkvs) (pystr "array") = true)
    (hit : ∀ kvs, alookup (pystr "items") pkvs ≠ some (.obj kvs)) :
    castPhase4Go recurse basePath ((prop, .obj pkvs) :: rest) result added removed =
      castPhase4Go recurse basePath rest result added removed := by
  cases hits : alookup (pystr "items") pkvs with
  | none => simp only [castPhase4Go, hl, hobj, harr, hits, Bool.false_eq_true, ite_false, ite_true]
  | some isch =>
    cases isch with
    | obj kvs => exact absurd hits (hit kvs)
    | null =>
      simp only [castPhase4Go, hl, hobj, harr, hits, Bool.false_eq_true, ite_false, ite_true]
    | bool b =>
      simp only [castPhase4Go, hl, hobj, harr, hits, Bool.false_eq_true, ite_false, ite_true]
    | num n =>
      simp only [castPhase4Go, hl, hobj, harr, hits, Bool.false_eq_true, ite_false, ite_true]
    | str s =>
      simp only [castPhase4Go, hl, hobj, harr, hits, Bool.false_eq_true, ite_false, ite_true]
    | arr xs =>
      simp only [castPhase4Go, hl, hobj, harr, hits, Bool.false_eq_true, ite_false, ite_true]

theorem castPhase4Go_cons_arr_hot_false
    {recurse : Json → Json → PyStr → Except PyStr (Json × List PyStr × List PyStr)}
    {basePath prop : PyStr} {pkvs itemKvs : List (PyStr × Json)} {items : List Json}
    {rest result : List (PyStr × Json)} {added removed : List PyStr}
    (hl : alookup prop result = some (.arr items))
    (hobj : optIsStr (alookup (pystr "type") pkvs) (pystr "object") = false)
    (harr : optIsStr (alookup (pystr "type") pkvs) (pystr "array") = true)
    (hits : alookup (pystr "items") pkvs = some (.obj itemKvs))
    (hot : optIsStr (alookup (pystr "type") itemKvs) (pystr "object") = false) :
    castPhase4Go recurse basePath ((prop, .obj pkvs) :: rest) result added removed =
      castPhase4Go recurse basePath rest result added removed := by
  simp only [castPhase4Go, hl, hobj, harr, hits, hot, Bool.false_eq_true, ite_false, ite_true]

theorem castPhase4Go_cons_arr_go
    {recurse : Json → Json → PyStr → Except PyStr (Json × List PyStr × List PyStr)}
    {basePath prop : PyStr} {pkvs itemKvs : List (PyStr × Json)} {items : List Json}
    {rest result : List (PyStr × Json)} {added removed : List PyStr}
    {newList : List Json} {a2 r2 : List PyStr}
    (hl : alookup prop result = some (.arr items))
    (hobj : optIsStr (alookup (pystr "type") pkvs) (pystr "object") = false)
    (harr : optIsStr (alookup (pystr "type") pkvs) (pystr "array") = true)
    (hits : alookup (pystr "items") pkvs = some (.obj itemKvs))
    (hot : optIsStr (alookup (pystr "type") itemKvs) (pystr "object") = true)
    (hgo : castItemsGo recurse (dottedPath basePath prop)
        (effectiveObjectSchema (.obj itemKvs)) items 0 [] added removed = .ok (newList, a2, r2)) :
    castPhase4Go recurse basePath ((prop, .obj pkvs) :: rest) result added removed =
      castPhase4Go recurse basePath rest (aset result prop (.arr newList)) a2 r2 := by
  simp only [castPhase4Go, hl, hobj, harr, hits, hot, hgo, Bool.false_eq_true, ite_false, ite_true]

theorem castPhase4Go_cons_arr_go_err
    {recurse : Json → Json → PyStr → Except PyStr (Json × List PyStr × List PyStr)}
    {basePath prop : PyStr} {pkvs itemKvs : List (PyStr × Json)} {items : List Json}
    {rest result : List (PyStr × Json)} {added removed : List PyStr} {e : PyStr}
    (hl : alookup prop result = some (.arr items))
    (hobj : optIsStr (alookup (pystr "type") pkvs) (pystr "object") = false)
    (harr : optIsStr (alookup (pystr "type") pkvs) (pystr "array") = true)
    (hits : alookup (pystr "items") pkvs = some (.obj itemKvs))
    (hot : optIsStr (alookup (pystr "type") itemKvs) (pystr "object") = true)
    (hgo : castItemsGo recurse (dottedPath basePath prop)
        (effectiveObjectSchema (.obj itemKvs)) items 0 [] added removed = .error e) :
    castPhase4Go recurse basePath ((prop, .obj pkvs) :: rest) result added removed = .error e := by
  simp only [castPhase4Go, hl, hobj, harr, hits, hot, hgo, Bool.false_eq_true, ite_false, ite_true]
theorem castPhase4Go_preserves
    (recurse : Json → Json → PyStr → Except PyStr (Json × List PyStr × List PyStr))
    (basePath : PyStr) :
    ∀ (props result : List (PyStr × Json)) (added removed : List PyStr)
      (out : Json) (aOut rOut : List PyStr) (k : PyStr) (v : Json),
      alookup k result = some v →
      (∀ pkvs2, (k, Json.obj pkvs2) ∈ props →
        optIsStr (alookup (pystr "type") pkvs2) (pystr "object") = false ∧
        optIsStr (alookup (pystr "type") pkvs2) (pystr "array") = false) →
      castPhase4Go recurse basePath props result added removed = .ok (out, aOut, rOut) →
      sget out k = some v ∧ ∃ suff, aOut = added ++ suff := by
  intro props
  induction props with
  | nil =>
    intro result added removed out aOut rOut k v hv _ h
    simp only [castPhase4Go, Except.ok.injEq, Prod.mk.injEq] at h
    rw [← h.1, ← h.2.1]
    exact ⟨hv, [], by simp⟩
  | cons hd rest ih =>
    intro result added removed out aOut rOut k v hv hskip h
    obtain ⟨prop, pSchema⟩ := hd
    have hskipRest : ∀ pkvs2, (k, Json.obj pkvs2) ∈ rest →
        optIsStr (alookup (pystr "type") pkvs2) (pystr "object") = false ∧
        optIsStr (alookup (pystr "type") pkvs2) (pystr "array") = false :=
      fun pkvs2 hm => hskip pkvs2 (List.mem_cons_of_mem _ hm)
    cases hl : alookup prop result with
    | none =>
      rw [castPhase4Go_cons_notfound hl] at h
      exact ih result added removed out aOut rOut k v hv hskipRest h
    | some val =>
      cases pSchema with
      | obj pkvs =>
        by_cases hobj : optIsStr (alookup (pystr "type") pkvs) (pystr "object") = true
        · have hpk : prop ≠ k := by
            intro hh
            subst hh
            exact absurd (hskip pkvs (List.mem_cons_self _ _)).1 (by simp [hobj])
          cases val with
          | obj vkvs =>
            cases hr : recurse (.obj vkvs) (effectiveObjectSchema (.obj pkvs))
                (dottedPath basePath prop) with
            | error e =>
              rw [castPhase4Go_cons_obj_recurse_err hl hobj hr] at h
              exact absurd h (by simp)
            | ok triple =>
              obtain ⟨newObj, addSub, remSub⟩ := triple
              rw [castPhase4Go_cons_obj_recurse hl hobj hr] at h
              have hv2 : alookup k (aset result prop newObj) = some v := by
                rw [alookup_aset_ne _ _ (fun hh => hpk hh.symm)]
                exact hv
              obtain ⟨ho, suff, hsuff⟩ := ih _ _ _ _ _ _ k v hv2 hskipRest h
              exact ⟨ho, addSub ++ suff, by rw [hsuff]; simp⟩
          | null =>
            rw [castPhase4Go_cons_obj_nonobj_val hl hobj (fun kvs => by simp)] at h
            exact ih result added removed out aOut rOut k v hv hskipRest h
          | bool b =>
            rw [castPhase4Go_cons_obj_nonobj_val hl hobj (fun kvs => by simp)] at h
            exact ih result added removed out aOut rOut k v hv hskipRest h
          | num n =>
            rw [castPhase4Go_cons_obj_nonobj_val hl hobj (fun kvs => by simp)] at h
            exact ih result added removed out aOut rOut k v hv hskipRest h
          | str s =>
            rw [castPhase4Go_cons_obj_nonobj_val hl hobj (fun kvs => by simp)] at h
            exact ih result added removed out aOut rOut k v hv hskipRest h
          | arr xs =>
            rw [castPhase4Go_cons_obj_nonobj_val hl hobj (fun kvs => by simp)] at h
            exact ih result added removed out aOut rOut k v hv hskipRest h
        · have hobjf : optIsStr (alookup (pystr "type") pkvs) (pystr "object") = false := by
            simpa using hobj
          by_cases harr : optIsStr (alookup (pystr "type") pkvs) (pystr "array") = true
          · have hpk : prop ≠ k := by
              intro hh
              subst hh
              exact absurd (hskip pkvs (List.mem_cons_self _ _)).2 (by simp [harr])
            cases val with
            | arr items =>
              by_cases hio : ∃ itemKvs, alookup (pystr "items") pkvs = some (.obj itemKvs)
              · obtain ⟨itemKvs, hits⟩ := hio
                by_cases hot : optIsStr (alookup (pystr "type") itemKvs) (pystr "object") = true
                · cases hgo : castItemsGo recurse (dottedPath basePath prop)
                      (effectiveObjectSchema (.obj itemKvs)) items 0 [] added removed with
                  | error e =>
                    rw [castPhase4Go_cons_arr_go_err hl hobjf harr hits hot hgo] at h
                    exact absurd h (by simp)
                  | ok triple =>
                    obtain ⟨newList, a2, r2⟩ := triple
                    rw [castPhase4Go_cons_arr_go hl hobjf harr hits hot hgo] at h
                    have hv2 : alookup k (aset result prop (.arr newList)) = some v := by
                      rw [alookup_aset_ne _ _ (fun hh => hpk hh.symm)]
                      exact hv
                    obtain ⟨ho, suff, hsuff⟩ := ih _ _ _ _ _ _ k v hv2 hskipRest h
                    obtain ⟨s2, hs2⟩ := castItemsGo_added_mono recurse
                      (dottedPath basePath prop) (effectiveObjectSchema (.obj itemKvs))
                      items 0 [] added removed newList a2 r2 hgo
                    exact ⟨ho, s2 ++ suff, by rw [hsuff, hs2]; simp⟩
                · have hotf : optIsStr (alookup (pystr "type") itemKvs) (pystr "object") = false := by
                    simpa using hot
                  rw [castPhase4Go_cons_arr_hot_false hl hobjf harr hits hotf] at h
                  exact ih result added removed out aOut rOut k v hv hskipRest h
              · rw [castPhase4Go_cons_arr_no_items hl hobjf harr
                  (fun kvs hh => hio ⟨kvs, hh⟩)] at h
                exact ih result added removed out aOut rOut k v hv hskipRest h
            | null =>
              rw [castPhase4Go_cons_arr_nonarr_val hl hobjf harr (fun xs => by simp)] at h
              exact ih result added removed out aOut rOut k v hv hskipRest h
            | bool b =>
              rw [castPhase4Go_cons_arr_nonarr_val hl hobjf harr (fun xs => by simp)] at h
              exact ih result added removed out aOut rOut k v hv hskipRest h
            | num n =>
              rw [castPhase4Go_cons_arr_nonarr_val hl hobjf harr (fun xs => by simp)] at h
              exact ih result added removed out aOut rOut k v hv hskipRest h
            | str s =>
              rw [castPhase4Go_cons_arr_nonarr_val hl hobjf harr (fun xs => by simp)] at h
              exact ih result added removed out aOut rOut k v hv hskipRest h
            | obj vkvs =>
              rw [castPhase4Go_cons_arr_nonarr_val hl hobjf harr (fun xs => by simp)] at h
              exact ih result added removed out aOut rOut k v hv hskipRest h
          · have harrf : optIsStr (alookup (pystr "type") pkvs) (pystr "array") = false := by
              simpa using harr
            rw [castPhase4Go_cons_skip_obj hl hobjf harrf] at h
            exact ih result added removed out aOut rOut k v hv hskipRest h
      | null =>
        rw [castPhase4Go_cons_nonobj_schema hl (fun kvs => by simp)] at h
        exact ih result added removed out aOut rOut k v hv hskipRest h
      | bool b =>
        rw [castPhase4Go_cons_nonobj_schema hl (fun kvs => by simp)] at h
        exact ih result added removed out aOut rOut k v hv hskipRest h
      | num n =>
        rw [castPhase4Go_cons_nonobj_schema hl (fun kvs => by simp)] at h
        exact ih result added removed out aOut rOut k v hv hskipRest h
      | str s =>
        rw [castPhase4Go_cons_nonobj_schema hl (fun kvs => by simp)] at h
        exact ih result added removed out aOut rOut k v hv hskipRest h
      | arr xs =>
        rw [castPhase4Go_cons_nonobj_schema hl (fun kvs => by simp)] at h
        exact ih result added removed out aOut rOut k v hv hskipRest h
theorem castStepF_succ (fuel : Nat) (ikvs : List (PyStr × Json)) (schema : Json) (bp : PyStr) :
    castStepF (fuel + 1) (.obj ikvs) schema bp =
      match castPhase1 (schemaTargetProps schema) bp (schemaRequiredL schema) ikvs [] with
      | .error e => .error e
      | .ok (r1, added1) =>
        let p2 := castPhase2 bp (schemaRequiredL schema) (schemaTargetProps schema) r1 added1
        let p3 := if schemaAdditionalFalse schema then
            castPhase3 (schemaTargetProps schema) bp (p2.1.map (fun kv => kv.1)) p2.1 []
          else (p2.1, [])
        castPhase4Go (castStepF fuel) bp (schemaTargetProps schema) p3.1 p2.2 p3.2 := by
  simp only [castStepF]

theorem jsonSize_obj_succ (skvs : List (PyStr × Json)) :
    jsonSize (.obj skvs) = jsonSizeObj skvs + 1 := by
  simp [jsonSize, Nat.add_comm]

theorem castInstanceToSchema_missing_required
    (ikvs skvs : List (PyStr × Json)) (reqs : List Json) (k : PyStr) (bp : PyStr)
    (hreq : alookup (pystr "required") skvs = some (.arr reqs))
    (hk : (.str k) ∈ reqs)
    (hck : containsKey k ikvs = false)
    (hnd : hasDefault ((alookup k (schemaTargetProps (.obj skvs))).getD (.obj [])) = false) :
    ∃ e, castInstanceToSchema (.obj ikvs) (.obj skvs) bp = .error e := by
  have hrl : schemaRequiredL (.obj skvs) = jsonDedup reqs := by
    simp [schemaRequiredL, sget, hreq]
  obtain ⟨e, he⟩ := castPhase1_missing_error (schemaTargetProps (.obj skvs)) bp
    (jsonDedup reqs) ikvs [] k (mem_jsonDedup_str hk) hck hnd
  refine ⟨e, ?_⟩
  unfold castInstanceToSchema
  rw [jsonSize_obj_succ, castStepF_succ, hrl, he]

theorem castInstanceToSchema_inserts_default
    (ikvs skvs pkvs : List (PyStr × Json)) (reqs : List Json) (k : PyStr) (d : Json)
    (bp : PyStr) (res : Json) (a r : List PyStr)
    (hreq : alookup (pystr "required") skvs = some (.arr reqs))
    (hk : (.str k) ∈ reqs)
    (hck : containsKey k ikvs = false)
    (hkp : alookup k (schemaTargetProps (.obj skvs)) = some (.obj pkvs))
    (hdef : alookup (pystr "default") pkvs = some d)
    (hto : optIsStr (alookup (pystr "type") pkvs) (pystr "object") = false)
    (hta : optIsStr (alookup (pystr "type") pkvs) (pystr "array") = false)
    (hnodup : ((schemaTargetProps (.obj skvs)).map Prod.fst).Nodup)
    (h : castInstanceToSchema (.obj ikvs) (.obj skvs) bp = .ok (res, a, r)) :
    sget res k = some d ∧ dottedPath bp k ∈ a := by
  have hrl : schemaRequiredL (.obj skvs) = jsonDedup reqs := by
    simp [schemaRequiredL, sget, hreq]
  unfold castInstanceToSchema at h
  rw [jsonSize_obj_succ, castStepF_succ, hrl] at h
  cases hp1 : castPhase1 (schemaTargetProps (.obj skvs)) bp (jsonDedup reqs) ikvs [] with
  | error e =>
    rw [hp1] at h
    exact absurd h (by simp)
  | ok pair =>
    obtain ⟨r1, a1⟩ := pair
    rw [hp1] at h
    simp only at h
    obtain ⟨hv1, hmem1⟩ := castPhase1_inserts (schemaTargetProps (.obj skvs)) bp
      (jsonDedup reqs) ikvs [] k pkvs d r1 a1 (mem_jsonDedup_str hk) hck hkp hdef hp1
    obtain ⟨hv2, s2, hs2⟩ := castPhase2_preserves bp (jsonDedup reqs)
      (schemaTargetProps (.obj skvs)) r1 a1 k d hv1
    have hskip : ∀ pkvs2, (k, Json.obj pkvs2) ∈ schemaTargetProps (.obj skvs) →
        optIsStr (alookup (pystr "type") pkvs2) (pystr "object") = false ∧
        optIsStr (alookup (pystr "type") pkvs2) (pystr "array") = false := by
      intro pkvs2 hm
      have := alookup_eq_of_mem_nodup hnodup hm
      rw [hkp] at this
      have heq : pkvs2 = pkvs := by
        injection this with h3
        injection h3 with h4
        exact h4.symm
      rw [heq]
      exact ⟨hto, hta⟩
    by_cases hadd : schemaAdditionalFalse (.obj skvs) = true
    · rw [if_pos hadd] at h
      have hv3 := castPhase3_preserves (schemaTargetProps (.obj skvs)) bp
        ((castPhase2 bp (jsonDedup reqs) (schemaTargetProps (.obj skvs)) r1 a1).1.map
          (fun kv => kv.1))
        (castPhase2 bp (jsonDedup reqs) (schemaTargetProps (.obj skvs)) r1 a1).1 [] k d hv2
        (alookup_some_containsKey hkp)
      obtain ⟨ho, s4, hs4⟩ := castPhase4Go_preserves (castStepF (jsonSizeObj skvs)) bp
        (schemaTargetProps (.obj skvs)) _ _ _ res a r k d hv3 hskip h
      refine ⟨ho, ?_⟩
      rw [hs4, hs2]
      simp only [List.mem_append]
      left
      left
      exact hmem1
    · rw [if_neg hadd] at h
      obtain ⟨ho, s4, hs4⟩ := castPhase4Go_preserves (castStepF (jsonSizeObj skvs)) bp
        (schemaTargetProps (.obj skvs)) _ _ _ res a r k d hv2 hskip h
      refine ⟨ho, ?_⟩
      rw [hs4, hs2]
      simp only [List.mem_append]
      left
      left
      exact hmem1
/-- Claim C8: casting `{a: 1}` to the S4 target (requires `a`, `b`;
`b.default = 7`; `additionalProperties: false`) yields `{a: 1, b: 7}` with
`added = ["b"]`, `removed = []` and `fully_compatible = true`; in general,
a required property absent from the instance whose dict property schema
carries a `default` is inserted (deep-copied, the identity here) with its
dotted path recorded in `added` (shown for properties the recursion of
step 4 leaves untouched), and an absent required property without a
default makes `_cast_instance_to_schema` fail. -/
theorem c8_cast_with_default :
    (JsonEntityCastResult.cast (pystr "gts.acme.pkg.ns.T.v1.0") (pystr "gts.acme.pkg.ns.T.v1.1~")
        (.obj [(pystr "a", .num 1)]) fxS4Schema =
      { from_id := pystr "gts.acme.pkg.ns.T.v1.0"
        to_id := pystr "gts.acme.pkg.ns.T.v1.1~"
        direction := pystr "up"
        added_properties := [pystr "b"]
        removed_properties := []
        changed_properties := []
        fully_compatible := true
        incompatibility_reasons := []
        casted_instance := some (.obj [(pystr "a", .num 1), (pystr "b", .num 7)]) })
    ∧ (∀ (ikvs skvs : List (PyStr × Json)) (reqs : List Json) (k : PyStr) (bp : PyStr),
        alookup (pystr "required") skvs = some (.arr reqs) →
        (.str k) ∈ reqs →
        containsKey k ikvs = false →
        hasDefault ((alookup k (schemaTargetProps (.obj skvs))).getD (.obj [])) = false →
        ∃ e, castInstanceToSchema (.obj ikvs) (.obj skvs) bp = .error e)
    ∧ (∀ (ikvs skvs pkvs : List (PyStr × Json)) (reqs : List Json) (k : PyStr) (d : Json)
        (bp : PyStr) (res : Json) (a r : List PyStr),
        alookup (pystr "required") skvs = some (.arr reqs) →
        (.str k) ∈ reqs →
        containsKey k ikvs = false →
        alookup k (schemaTargetProps (.obj skvs)) = some (.obj pkvs) →
        alookup (pystr "default") pkvs = some d →
        optIsStr (alookup (pystr "type") pkvs) (pystr "object") = false →
        optIsStr (alookup (pystr "type") pkvs) (pystr "array") = false →
        ((schemaTargetProps (.obj skvs)).map Prod.fst).Nodup →
        castInstanceToSchema (.obj ikvs) (.obj skvs) bp = .ok (res, a, r) →
        sget res k = some d ∧ dottedPath bp k ∈ a) :=
  ⟨rfl,
   fun ikvs skvs reqs k bp h1 h2 h3 h4 =>
     castInstanceToSchema_missing_required ikvs skvs reqs k bp h1 h2 h3 h4,
   fun ikvs skvs pkvs reqs k d bp res a r h1 h2 h3 h4 h5 h6 h7 h8 h9 =>
     castInstanceToSchema_inserts_default ikvs skvs pkvs reqs k d bp res a r
       h1 h2 h3 h4 h5 h6 h7 h8 h9⟩

/-- Witness for the quantified parts of `c8_cast_with_default`: the
missing-required failure on an empty instance, and the inserted default of
the S4 scenario. -/
theorem c8_witness :
    (∃ e, castInstanceToSchema (.obj [])
        (.obj [(pystr "required", .arr [.str (pystr "q")])]) [] = .error e)
    ∧ (sget (.obj [(pystr "a", .num 1), (pystr "b", .num 7)]) (pystr "b") = some (.num 7)
       ∧ dottedPath [] (pystr "b") ∈ [pystr "b"]) :=
  ⟨c8_cast_with_default.2.1 [] [(pystr "required", .arr [.str (pystr "q")])]
      [.str (pystr "q")] (pystr "q") [] rfl (List.mem_cons_self _ _) rfl rfl,
   c8_cast_with_default.2.2 [(pystr "a", .num 1)]
      (match fxS4Schema with | .obj kvs => kvs | _ => [])
      [(pystr "type", .str (pystr "integer")), (pystr "default", .num 7)]
      [.str (pystr "a"), .str (pystr "b")] (pystr "b") (.num 7) []
      (.obj [(pystr "a", .num 1), (pystr "b", .num 7)]) [pystr "b"] []
      rfl (List.mem_cons_of_mem _ (List.mem_cons_self _ _)) rfl rfl rfl rfl rfl
      (by decide) rfl⟩

/-! ## Wildcard lemmas (claim C6) -/

theorem pyStrip_def (l : PyStr) :
    pyStrip l = (l.dropWhile isPySpace).rdropWhile isPySpace := rfl

theorem pyStrip_idem (l : PyStr) : pyStrip (pyStrip l) = pyStrip l := by
  rw [pyStrip_def, pyStrip_def]
  cases hD : l.dropWhile isPySpace with
  | nil => simp [List.rdropWhile, List.dropWhile]
  | cons a as =>
    have ha : isPySpace a = false := by
      have h0 : 0 < (l.dropWhile isPySpace).length := by rw [hD]; simp
      have := List.dropWhile_get_zero_not isPySpace l h0
      have hget : (l.dropWhile isPySpace).get ⟨0, h0⟩ = a := by
        simp [hD]
      rw [hget] at this
      simpa using this
    cases hR : (a :: as).rdropWhile isPySpace with
    | nil => simp [List.rdropWhile, List.dropWhile]
    | cons b bs =>
      have hpre := List.rdropWhile_prefix isPySpace (a :: as)
      rw [hR] at hpre
      obtain ⟨t, ht⟩ := hpre
      have hb : b = a := by
        have := ht
        simp only [List.cons_append] at this
        injection this with h1 _
      have hdrop : (b :: bs).dropWhile isPySpace = b :: bs := by
        rw [List.dropWhile_cons]
        rw [hb, ha]
        simp
      rw [hdrop, ← hR]
      exact List.rdropWhile_idempotent _ _

theorem isPrefixOf_singleton_iff (c : Char) (l : PyStr) :
    [c].isPrefixOf l = true ↔ l.head? = some c := by
  cases l with
  | nil => simp [List.isPrefixOf]
  | cons y ys =>
    simp only [List.isPrefixOf, List.head?]
    constructor
    · intro h
      have : c = y := by simpa using h
      rw [this]
    · intro h
      have : y = c := by injection h
      simp [this]

theorem pyEndsWith_singleton (l : PyStr) (c : Char) :
    pyEndsWith l [c] = true ↔ l.getLast? = some c := by
  show ([c].isSuffixOf l) = true ↔ _
  rw [List.isSuffixOf]
  show ([c].isPrefixOf l.reverse) = true ↔ _
  rw [isPrefixOf_singleton_iff, List.head?_reverse]

theorem mkGtsID_ok_parts {s : PyStr} {g : GtsID} (h : mkGtsID s = .ok g) :
    g.id = pyStrip s ∧ (pystr "gts.").isPrefixOf (pyStrip s) = true ∧
    segsOf (gtsParts s) = .ok g.gts_id_segments := by
  unfold mkGtsID at h
  by_cases h1 : ((pystr "gts.").isPrefixOf (pyStrip s)) = true
  · rw [if_neg (by simp [h1])] at h
    by_cases h2 : (pyStrip s).length > 1024
    · rw [if_pos h2] at h
      exact absurd h (by simp)
    · rw [if_neg h2] at h
      cases hs : segsOf (mkParts (pySplit '~' ((pyStrip s).drop 4))) with
      | ok segs =>
        rw [hs] at h
        simp only [Except.ok.injEq] at h
        rw [← h]
        exact ⟨rfl, h1, hs⟩
      | error e =>
        rw [hs] at h
        exact absurd h (by simp)
  · rw [if_pos (by simpa using h1)] at h
    exact absurd h (by simp)

theorem mkGtsWildcard_ok_inv {ps : PyStr} {w : GtsID} (h : mkGtsWildcard ps = .ok w) :
    mkGtsID (pyStrip ps) = .ok w := by
  unfold mkGtsWildcard at h
  by_cases h1 : ((pystr "gts.").isPrefixOf (pyStrip ps)) = true
  · rw [if_neg (by simp [h1])] at h
    by_cases h2 : ('*' ∈ pyStrip ps && ¬ pyEndsWith (pyStrip ps) (pystr ".*")) = true
    · rw [if_pos h2] at h
      exact absurd h (by simp)
    · rw [if_neg h2] at h
      cases hg : mkGtsID (pyStrip ps) with
      | ok g =>
        rw [hg] at h
        simp only [Except.ok.injEq] at h
        rw [h]
      | error e =>
        rw [hg] at h
        cases e <;> simp at h
  · rw [if_pos (by simpa using h1)] at h
    exact absurd h (by simp)

theorem gtsid_strip_self {s : PyStr} {g : GtsID} (h : mkGtsID s = .ok g) :
    pyStrip g.id = g.id := by
  rw [(mkGtsID_ok_parts h).1]
  exact pyStrip_idem s
theorem count_one_of_mem_not_gt {p : PyStr} (hm : '*' ∈ p) (hc : ¬ p.count '*' > 1) :
    p.count '*' = 1 := by
  have h1 : 0 < p.count '*' := List.count_pos_iff_mem.mpr hm
  omega

/-- Claim C6 (amended): for every valid candidate and constructed
wildcard, `wildcard_match` is true iff the pattern has no `*` and equals
the candidate, or has exactly one `*`, as its last character, and the
candidate starts with the pattern minus the `*`; and construction rejects
with an invalid-wildcard error exactly the patterns containing a `*` that
do not end with `.*` — a multi-star pattern ending in `.*`, whose first
`*` is not the final token, is accepted (see the counterexample). -/
theorem c6_wildcard_match_spec :
    (∀ (cs ps : PyStr) (c w : GtsID), mkGtsID cs = .ok c → mkGtsWildcard ps = .ok w →
      (wildcardMatch c w = true ↔
        ((¬ ('*' ∈ w.id)) ∧ w.id = c.id)
        ∨ (w.id.count '*' = 1 ∧ w.id.getLast? = some '*'
            ∧ w.id.dropLast.isPrefixOf c.id = true)))
    ∧ (∀ ps : PyStr, (pystr "gts.").isPrefixOf (pyStrip ps) = true →
        '*' ∈ pyStrip ps → pyEndsWith (pyStrip ps) (pystr ".*") = false →
        mkGtsWildcard ps = .error .invalidWildcard) := by
  constructor
  · intro cs ps c w hc hw
    have hsc : pyStrip c.id = c.id := gtsid_strip_self hc
    have hsw : pyStrip w.id = w.id := gtsid_strip_self (mkGtsWildcard_ok_inv hw)
    unfold wildcardMatch
    by_cases hm : '*' ∈ w.id
    · rw [if_neg (by simp [hm])]
      by_cases hcnt : w.id.count '*' > 1
      · rw [if_pos (by rw [decide_eq_true hcnt, Bool.true_or])]
        constructor
        · intro h
          exact absurd h (by simp)
        · intro hor
          exfalso
          rcases hor with ⟨h1, _⟩ | ⟨h1, _⟩
          · exact h1 hm
          · omega
      · by_cases he : pyEndsWith w.id (pystr "*") = true
        · have hA : decide (List.count '*' w.id > 1) = false := decide_eq_false hcnt
          have hB : decide (¬ pyEndsWith w.id (pystr "*") = true) = false := by
            simp [he]
          rw [if_neg (by rw [hA, hB]; simp)]
          have hcount : w.id.count '*' = 1 := count_one_of_mem_not_gt hm hcnt
          have hlast : w.id.getLast? = some '*' := (pyEndsWith_singleton _ _).mp he
          constructor
          · intro hpref
            right
            exact ⟨hcount, hlast, hpref⟩
          · intro hor
            rcases hor with ⟨h1, _⟩ | ⟨_, _, h3⟩
            · exact absurd hm h1
            · exact h3
        · rw [if_pos (by rw [decide_eq_true he, Bool.or_true])]
          constructor
          · intro h
            exact absurd h (by simp)
          · intro hor
            exfalso
            rcases hor with ⟨h1, _⟩ | ⟨_, h2, _⟩
            · exact h1 hm
            · exact he ((pyEndsWith_singleton _ _).mpr h2)
    · rw [if_pos hm]
      rw [hsw, hsc]
      constructor
      · intro hdec
        left
        exact ⟨hm, of_decide_eq_true hdec⟩
      · intro hor
        rcases hor with ⟨_, h2⟩ | ⟨h1, _, _⟩
        · exact decide_eq_true h2
        · exact absurd (List.count_pos_iff_mem.mp (by omega)) hm
  · intro ps h1 h2 h3
    unfold mkGtsWildcard
    rw [if_neg (by simp [h1])]
    rw [if_pos (by simp [h2, h3])]

/-- Claim C6 (counterexample): `gts.*.*` contains a `*` token at a
non-final position (dot-token list `[gts, *, *]`), yet `GtsWildcard`
construction succeeds instead of rejecting with an invalid-wildcard
error, because the constructor only checks the `.*` suffix. -/
theorem c6_counterexample :
    (mkGtsWildcard (pystr "gts.*.*")).toBool = true
    ∧ pySplit '.' (pystr "gts.*.*") = [pystr "gts", pystr "*", pystr "*"] :=
  ⟨rfl, rfl⟩

/-- Witness for `c6_wildcard_match_spec`: the S3 match
(`gts.acme.pkg.x.v1` against `gts.acme.*`) and a rejected interior-star
pattern. -/
theorem c6_witness :
    wildcardMatch ((mkGtsID (pystr "gts.acme.pkg.x.v1")).toOption.getD ⟨[], []⟩)
      ((mkGtsWildcard (pystr "gts.acme.*")).toOption.getD ⟨[], []⟩) = true
    ∧ mkGtsWildcard (pystr "gts.x.*.y") = .error .invalidWildcard := by
  constructor
  · have h := c6_wildcard_match_spec.1 (pystr "gts.acme.pkg.x.v1") (pystr "gts.acme.*")
      ((mkGtsID (pystr "gts.acme.pkg.x.v1")).toOption.getD ⟨[], []⟩)
      ((mkGtsWildcard (pystr "gts.acme.*")).toOption.getD ⟨[], []⟩) rfl rfl
    refine h.mpr (Or.inr ⟨by decide, by decide, by decide⟩)
  · exact c6_wildcard_match_spec.2 (pystr "gts.x.*.y") rfl (by decide) rfl

/-! ## Claim C9: entity-id field selection (`entities.py`) -/

/-- A field with a string value whose strip is non-blank but which is not
a valid identifier is skipped by the first loop. -/
theorem fieldLoop1_skip_head {content : Json} {f : PyStr} {rest : List PyStr}
    (h : ∀ u, contentStrField content f = some u → ¬(pyStrip u ≠ [] ∧ isValidGts u = true)) :
    fieldLoop1 content (f :: rest) = fieldLoop1 content rest := by
  cases hc : contentStrField content f with
  | none => simp only [fieldLoop1, hc]
  | some u =>
    simp only [fieldLoop1, hc]
    rw [if_neg (h u hc)]

/-- The first loop selects a field holding a non-blank valid identifier. -/
theorem fieldLoop1_hit {content : Json} {f v : PyStr} {rest : List PyStr}
    (hc : contentStrField content f = some v)
    (hb : pyStrip v ≠ []) (hv : isValidGts v = true) :
    fieldLoop1 content (f :: rest) = some (f, v) := by
  simp only [fieldLoop1, hc]
  rw [if_pos ⟨hb, hv⟩]

/-- If no field holds a non-blank valid identifier, the first loop finds
nothing. -/
theorem fieldLoop1_skip_all {content : Json} :
    ∀ {l : List PyStr},
      (∀ g ∈ l, ∀ u, contentStrField content g = some u →
        ¬(pyStrip u ≠ [] ∧ isValidGts u = true)) →
      fieldLoop1 content l = none := by
  intro l
  induction l with
  | nil => intro _; rfl
  | cons f rest ih =>
    intro h
    rw [fieldLoop1_skip_head (h f (List.mem_cons_self _ _))]
    exact ih (fun g hg => h g (List.mem_cons_of_mem _ hg))

/-- The first loop ignores a prefix of fields none of which holds a
non-blank valid identifier. -/
theorem fieldLoop1_prefix_skip {content : Json} :
    ∀ {pre rest : List PyStr},
      (∀ g ∈ pre, ∀ u, contentStrField content g = some u →
        ¬(pyStrip u ≠ [] ∧ isValidGts u = true)) →
      fieldLoop1 content (pre ++ rest) = fieldLoop1 content rest := by
  intro pre
  induction pre with
  | nil => intro rest _; rfl
  | cons f p ih =>
    intro rest h
    rw [List.cons_append, fieldLoop1_skip_head (h f (List.mem_cons_self _ _))]
    exact ih (fun g hg => h g (List.mem_cons_of_mem _ hg))

/-- A field whose string value strips to blank is skipped by the second
loop. -/
theorem fieldLoop2_skip_head {content : Json} {f : PyStr} {rest : List PyStr}
    (h : ∀ u, contentStrField content f = some u → pyStrip u = []) :
    fieldLoop2 content (f :: rest) = fieldLoop2 content rest := by
  cases hc : contentStrField content f with
  | none => simp only [fieldLoop2, hc]
  | some u =>
    simp only [fieldLoop2, hc]
    rw [if_neg (fun hn => hn (h u hc))]

/-- The second loop selects a field holding a non-blank string. -/
theorem fieldLoop2_hit {content : Json} {f v : PyStr} {rest : List PyStr}
    (hc : contentStrField content f = some v) (hb : pyStrip v ≠ []) :
    fieldLoop2 content (f :: rest) = some (f, v) := by
  simp only [fieldLoop2, hc]
  rw [if_pos hb]

/-- The second loop ignores a prefix of fields none of which holds a
non-blank string. -/
theorem fieldLoop2_prefix_skip {content : Json} :
    ∀ {pre rest : List PyStr},
      (∀ g ∈ pre, ∀ u, contentStrField content g = some u → pyStrip u = []) →
      fieldLoop2 content (pre ++ rest) = fieldLoop2 content rest := by
  intro pre
  induction pre with
  | nil => intro rest _; rfl
  | cons f p ih =>
    intro rest h
    rw [List.cons_append, fieldLoop2_skip_head (h f (List.mem_cons_self _ _))]
    exact ih (fun g hg => h g (List.mem_cons_of_mem _ hg))

/-- Claim C9 (counterexample): the single candidate field holds the
non-empty string `" "`, yet no field is selected at all — the code
requires a non-blank `v.strip()`, not merely a non-empty string. -/
theorem c9_counterexample :
    firstNonEmptyField (.obj [(pystr "$id", .str (pystr " "))]) [pystr "$id"] = none
    ∧ pystr " " ≠ ([] : PyStr) :=
  ⟨rfl, by decide⟩

/-- Claim C9 (amended): `_first_non_empty_field` walks
`entity_id_fields` in order; the first field whose value is a string
that is non-blank after stripping and a valid GTS identifier wins; if no
field holds such a value, the first field whose string value is
non-blank after stripping wins, and `gts_id` then stays unset because
the selected value is not a valid identifier. -/
theorem c9_field_selection :
    (∀ (content : Json) (pre : List PyStr) (f : PyStr) (post : List PyStr) (v : PyStr),
      (∀ g ∈ pre, ∀ u, contentStrField content g = some u →
        ¬(pyStrip u ≠ [] ∧ isValidGts u = true)) →
      contentStrField content f = some v → pyStrip v ≠ [] → isValidGts v = true →
      firstNonEmptyField content (pre ++ f :: post) = some (f, v))
    ∧ (∀ (content : Json) (pre : List PyStr) (f : PyStr) (post : List PyStr) (v : PyStr),
      (∀ g ∈ pre ++ f :: post, ∀ u, contentStrField content g = some u →
        ¬(pyStrip u ≠ [] ∧ isValidGts u = true)) →
      (∀ g ∈ pre, ∀ u, contentStrField content g = some u → pyStrip u = []) →
      contentStrField content f = some v → pyStrip v ≠ [] →
      firstNonEmptyField content (pre ++ f :: post) = some (f, v)
      ∧ detectGtsId content (pre ++ f :: post) none none = none) := by
  constructor
  · intro content pre f post v hpre hc hb hv
    unfold firstNonEmptyField
    rw [fieldLoop1_prefix_skip hpre, fieldLoop1_hit hc hb hv]
  · intro content pre f post v hnone hpre hc hb
    have hl1 : fieldLoop1 content (pre ++ f :: post) = none := fieldLoop1_skip_all hnone
    have hfirst : firstNonEmptyField content (pre ++ f :: post) = some (f, v) := by
      unfold firstNonEmptyField
      rw [hl1, fieldLoop2_prefix_skip hpre, fieldLoop2_hit hc hb]
    refine ⟨hfirst, ?_⟩
    have hinvalid : isValidGts v = false := by
      have := hnone f (by simp) v hc
      by_cases hvv : isValidGts v = true
      · exact absurd ⟨hb, hvv⟩ this
      · simpa using hvv
    unfold detectGtsId calcJsonEntityId
    rw [hfirst]
    simp only [hinvalid]
    rw [if_neg (by simp)]

/-- Witness for `c9_field_selection`: the valid id in `gtsId` beats the
earlier non-blank but invalid `$id`; and when only the invalid `$id` is
present it is selected while `gts_id` stays unset. -/
theorem c9_witness :
    firstNonEmptyField (.obj [(pystr "$id", .str (pystr "x")), (pystr "gtsId", .str (pystr "gts.a.b.c.D.v1"))])
      ([pystr "$id"] ++ pystr "gtsId" :: []) = some (pystr "gtsId", pystr "gts.a.b.c.D.v1")
    ∧ (firstNonEmptyField (.obj [(pystr "$id", .str (pystr "x"))])
        ([] ++ pystr "$id" :: []) = some (pystr "$id", pystr "x")
      ∧ detectGtsId (.obj [(pystr "$id", .str (pystr "x"))]) ([] ++ pystr "$id" :: []) none none = none) :=
  ⟨c9_field_selection.1 (.obj [(pystr "$id", .str (pystr "x")), (pystr "gtsId", .str (pystr "gts.a.b.c.D.v1"))])
      [pystr "$id"] (pystr "gtsId") [] (pystr "gts.a.b.c.D.v1")
      (by
        intro g hg u hu
        have hgeq : g = pystr "$id" := by simpa using hg
        rw [hgeq] at hu
        have : u = pystr "x" := by
          simp only [contentStrField, alookup] at hu
          simp at hu
          rw [hu]
        rw [this]
        decide)
      rfl (by decide) rfl,
   c9_field_selection.2 (.obj [(pystr "$id", .str (pystr "x"))]) [] (pystr "$id") [] (pystr "x")
      (by
        intro g hg u hu
        have hgeq : g = pystr "$id" := by simpa using hg
        rw [hgeq] at hu
        have : u = pystr "x" := by
          simp only [contentStrField, alookup] at hu
          simp at hu
          rw [hu]
        rw [this]
        decide)
      (by intro g hg; exact absurd hg (List.not_mem_nil g))
      rfl (by decide)⟩

/-! ## Claim C5: identifier segment round-trip (`gts.py`) -/

theorem pySplit_ne_nil (c : Char) (l : PyStr) : pySplit c l ≠ [] := by
  induction l with
  | nil => simp [pySplit]
  | cons a rest ih =>
    by_cases hac : a = c
    · simp [pySplit, hac]
    · simp only [pySplit, if_neg hac]
      cases hs : pySplit c rest with
      | nil => simp
      | cons s ss => simp

theorem joinSep_cons_cons (c : Char) (a : Char) (s : PyStr) (ss : List PyStr) :
    joinSep c ((a :: s) :: ss) = a :: joinSep c (s :: ss) := by
  cases ss with
  | nil => rfl
  | cons w ws => simp [joinSep]

theorem joinSep_pySplit (c : Char) (l : PyStr) : joinSep c (pySplit c l) = l := by
  induction l with
  | nil => rfl
  | cons a rest ih =>
    by_cases hac : a = c
    · simp only [pySplit, if_pos hac]
      cases hs : pySplit c rest with
      | nil => exact absurd hs (pySplit_ne_nil c rest)
      | cons s ss =>
        rw [hs] at ih
        simp [joinSep, ih, hac]
    · simp only [pySplit, if_neg hac]
      cases hs : pySplit c rest with
      | nil => exact absurd hs (pySplit_ne_nil c rest)
      | cons s ss =>
        rw [hs] at ih
        rw [joinSep_cons_cons, ih]

theorem flatten_mkParts : ∀ qs : List PyStr, (mkParts qs).flatten = joinSep '~' qs := by
  intro qs
  induction qs with
  | nil => rfl
  | cons x rest ih =>
    cases rest with
    | nil => simp [mkParts, joinSep]
    | cons y rest2 =>
      cases rest2 with
      | nil =>
        by_cases hy : y = ([] : PyStr)
        · simp [mkParts, hy, joinSep]
        · simp [mkParts, hy, joinSep]
      | cons z rest3 =>
        show ((x ++ [ '~' ]) :: mkParts (y :: z :: rest3)).flatten = _
        rw [List.flatten_cons, ih]
        simp [joinSep]

theorem pySplit_sepFree (c : Char) : ∀ (l : PyStr), ∀ q ∈ pySplit c l, c ∉ q := by
  intro l
  induction l with
  | nil => intro q hq; simp [pySplit] at hq; simp [hq]
  | cons a rest ih =>
    intro q hq
    by_cases hac : a = c
    · simp only [pySplit, if_pos hac] at hq
      rcases List.mem_cons.mp hq with h | h
      · simp [h]
      · exact ih q h
    · simp only [pySplit, if_neg hac] at hq
      cases hs : pySplit c rest with
      | nil => exact absurd hs (pySplit_ne_nil c rest)
      | cons s ss =>
        rw [hs] at hq
        rcases List.mem_cons.mp hq with h | h
        · rw [h]
          intro hmem
          rcases List.mem_cons.mp hmem with h2 | h2
          · exact hac h2.symm
          · exact ih s (by rw [hs]; exact List.mem_cons_self _ _) h2
        · exact ih q (by rw [hs]; exact List.mem_cons_of_mem _ h)

theorem pySplit_append_cons (c : Char) : ∀ (b t : PyStr), c ∉ b →
    pySplit c (b ++ c :: t) = b :: pySplit c t := by
  intro b
  induction b with
  | nil => intro t _; simp [pySplit]
  | cons a b2 ih =>
    intro t hc
    have hac : ¬ a = c := fun h => hc (by rw [h]; exact List.mem_cons_self _ _)
    show pySplit c (a :: (b2 ++ c :: t)) = _
    simp only [pySplit, if_neg hac]
    rw [ih t (fun h => hc (List.mem_cons_of_mem _ h))]

theorem pySplit_flatten_mapSep (c : Char) : ∀ (bs : List PyStr), (∀ b ∈ bs, c ∉ b) →
    pySplit c ((bs.map (· ++ [c])).flatten) = bs ++ [[]] := by
  intro bs
  induction bs with
  | nil => intro _; simp [pySplit]
  | cons b rest ih =>
    intro h
    rw [List.map_cons, List.flatten_cons]
    have : b ++ [c] ++ (rest.map (· ++ [c])).flatten = b ++ c :: (rest.map (· ++ [c])).flatten := by
      simp
    rw [this, pySplit_append_cons c _ _ (h b (List.mem_cons_self _ _)),
        ih (fun x hx => h x (List.mem_cons_of_mem _ hx))]
    rfl

theorem mkParts_append_nil : ∀ (bs : List PyStr), bs ≠ [] →
    mkParts (bs ++ [[]]) = bs.map (· ++ [ '~' ]) := by
  intro bs
  induction bs with
  | nil => intro h; exact absurd rfl h
  | cons x rest ih =>
    intro _
    cases rest with
    | nil => rfl
    | cons y rest2 =>
      cases rest2 with
      | nil => rfl
      | cons z rest3 =>
        show mkParts (x :: y :: z :: (rest3 ++ [[]])) = _
        show (x ++ [ '~' ]) :: mkParts (y :: z :: (rest3 ++ [[]])) = _
        rw [show y :: z :: (rest3 ++ [[]]) = (y :: z :: rest3) ++ [[]] by simp]
        rw [ih (by simp)]
        rfl

theorem mkParts_length_le : ∀ qs : List PyStr, (mkParts qs).length ≤ qs.length := by
  intro qs
  induction qs with
  | nil => simp [mkParts]
  | cons x rest ih =>
    cases rest with
    | nil => simp [mkParts]
    | cons y rest2 =>
      cases rest2 with
      | nil =>
        by_cases hy : y = ([] : PyStr)
        · simp [mkParts, hy]
        · simp [mkParts, hy]
      | cons z rest3 =>
        show ((x ++ [ '~' ]) :: mkParts (y :: z :: rest3)).length ≤ _
        simp only [List.length_cons]
        exact Nat.succ_le_succ ih

theorem mkParts_take : ∀ (qs : List PyStr) (k : Nat), k < (mkParts qs).length →
    (mkParts qs).take k = (qs.take k).map (· ++ [ '~' ]) := by
  intro qs
  induction qs with
  | nil => intro k hk; simp [mkParts] at hk
  | cons x rest ih =>
    intro k hk
    cases rest with
    | nil =>
      simp only [mkParts, List.length_cons, List.length_nil] at hk
      have : k = 0 := by omega
      simp [this]
    | cons y rest2 =>
      cases rest2 with
      | nil =>
        by_cases hy : y = ([] : PyStr)
        · simp only [mkParts, if_pos hy, List.length_cons, List.length_nil] at hk
          have : k = 0 := by omega
          simp [this]
        · simp only [mkParts, if_neg hy, List.length_cons, List.length_nil] at hk
          interval_cases k
          · simp
          · simp [mkParts, hy]
      | cons z rest3 =>
        show ((x ++ [ '~' ]) :: mkParts (y :: z :: rest3)).take k = _
        cases k with
        | zero => simp
        | succ j =>
          have hj : j < (mkParts (y :: z :: rest3)).length := by
            have : ((x ++ [ '~' ]) :: mkParts (y :: z :: rest3)).length
                = (mkParts (y :: z :: rest3)).length + 1 := by simp
            show _ < _
            have hk2 := hk
            rw [show (mkParts (x :: y :: z :: rest3)) = (x ++ [ '~' ]) :: mkParts (y :: z :: rest3) from rfl] at hk2
            simp only [List.length_cons] at hk2
            omega
          rw [List.take_succ_cons, ih j hj]
          rfl

theorem flatten_mapSep_concat (c : Char) : ∀ (bs : List PyStr), bs ≠ [] →
    ∃ u, (bs.map (· ++ [c])).flatten = u ++ [c] := by
  intro bs
  induction bs with
  | nil => intro h; exact absurd rfl h
  | cons b rest ih =>
    intro _
    cases rest with
    | nil => exact ⟨b, by simp⟩
    | cons y rest2 =>
      obtain ⟨u, hu⟩ := ih (by simp)
      refine ⟨b ++ [c] ++ u, ?_⟩
      rw [List.map_cons, List.flatten_cons, hu]
      simp

theorem parseSegmentFields_segment : ∀ {tokens : List PyStr} {base r : GtsIdSegment},
    parseSegmentFields tokens base = some r → r.segment = base.segment := by
  intro tokens base r h
  unfold parseSegmentFields at h
  repeat' split at h
  all_goals first
    | (exact Option.noConfusion h)
    | (injection h with h2; rw [← h2])

theorem parseSegment_segment {p : PyStr} {seg : GtsIdSegment}
    (h : parseSegment p = some seg) : seg.segment = pyStrip p := by
  unfold parseSegment at h
  dsimp only at h
  repeat' split at h
  all_goals first
    | exact Option.noConfusion h
    | exact parseSegmentFields_segment h

theorem segsOf_map_segment : ∀ {ps : List PyStr} {segs : List GtsIdSegment},
    segsOf ps = .ok segs → segs.map (fun sg => sg.segment) = ps.map pyStrip := by
  intro ps
  induction ps with
  | nil =>
    intro segs h
    simp only [segsOf] at h
    injection h with h2
    rw [← h2]
    rfl
  | cons p rest ih =>
    intro segs h
    simp only [segsOf] at h
    split at h
    · exact Except.noConfusion h
    · cases hp : parseSegment p with
      | none => rw [hp] at h; exact Except.noConfusion h
      | some seg =>
        rw [hp] at h
        cases hr : segsOf rest with
        | ok srest =>
          rw [hr] at h
          injection h with h2
          rw [← h2, List.map_cons, List.map_cons, parseSegment_segment hp, ih hr]
        | error e => rw [hr] at h; exact Except.noConfusion h

theorem segsOf_take : ∀ {ps : List PyStr} {segs : List GtsIdSegment},
    segsOf ps = .ok segs → ∀ k, segsOf (ps.take k) = .ok (segs.take k) := by
  intro ps
  induction ps with
  | nil =>
    intro segs h k
    simp only [segsOf] at h
    injection h with h2
    rw [← h2]
    simp [segsOf]
  | cons p rest ih =>
    intro segs h k
    simp only [segsOf] at h
    split at h
    · exact Except.noConfusion h
    · rename_i hpne
      cases hp : parseSegment p with
      | none => rw [hp] at h; exact Except.noConfusion h
      | some seg =>
        rw [hp] at h
        cases hr : segsOf rest with
        | ok srest =>
          rw [hr] at h
          injection h with h2
          rw [← h2]
          cases k with
          | zero => rfl
          | succ j =>
            rw [List.take_succ_cons, List.take_succ_cons]
            simp only [segsOf, if_neg hpne, hp, ih hr j]
        | error e => rw [hr] at h; exact Except.noConfusion h

theorem map_pyStrip_id {ps : List PyStr} (h : ∀ p ∈ ps, pyStrip p = p) :
    ps.map pyStrip = ps := by
  induction ps with
  | nil => rfl
  | cons p rest ih =>
    rw [List.map_cons, h p (List.mem_cons_self _ _),
        ih (fun q hq => h q (List.mem_cons_of_mem _ hq))]

theorem pyStrip_eq_self {l : PyStr}
    (hh : ∀ a, l.head? = some a → isPySpace a = false)
    (hl : ∀ b, l.getLast? = some b → isPySpace b = false) : pyStrip l = l := by
  rw [pyStrip_def]
  have hd : l.dropWhile isPySpace = l := by
    cases l with
    | nil => rfl
    | cons a as =>
      rw [List.dropWhile_cons, hh a rfl]
      simp
  rw [hd]
  rw [List.rdropWhile_eq_self_iff]
  intro hne
  rw [hl (l.getLast hne) (List.getLast?_eq_getLast l hne ▸ rfl)]
  simp

theorem mkGtsID_ok_of {t : PyStr} {segs : List GtsIdSegment}
    (hstrip : pyStrip t = t)
    (hpre : (pystr "gts.").isPrefixOf t = true)
    (hlen : t.length ≤ 1024)
    (hsegs : segsOf (mkParts (pySplit '~' (t.drop 4))) = .ok segs) :
    mkGtsID t = .ok ⟨t, segs⟩ := by
  unfold mkGtsID
  rw [hstrip, if_neg (by simp [hpre]), if_neg (by omega), hsegs]

theorem mkGtsID_ok_len {s : PyStr} {g : GtsID} (h : mkGtsID s = .ok g) :
    (pyStrip s).length ≤ 1024 := by
  unfold mkGtsID at h
  by_cases h1 : ((pystr "gts.").isPrefixOf (pyStrip s)) = true
  · rw [if_neg (by simp [h1])] at h
    by_cases h2 : (pyStrip s).length > 1024
    · rw [if_pos h2] at h
      exact absurd h (by simp)
    · omega
  · rw [if_pos (by simpa using h1)] at h
    exact absurd h (by simp)

/-- Claim C5 (amended): for every string that parses and whose derived
segment substrings are `strip`-invariant, prefixing `gts.` to the
concatenation of the stored segment strings reproduces the canonical
string `g.id` exactly, and every non-empty prefix of the segments,
concatenated the same way, is itself a valid identifier. -/
theorem c5_segment_roundtrip :
    ∀ (s : PyStr) (g : GtsID), mkGtsID s = .ok g →
      (∀ p ∈ gtsParts s, pyStrip p = p) →
      (pystr "gts." ++ (g.gts_id_segments.map (fun sg => sg.segment)).flatten = g.id
       ∧ ∀ k, 0 < k → k ≤ g.gts_id_segments.length →
          isValidGts (pystr "gts."
            ++ ((g.gts_id_segments.take k).map (fun sg => sg.segment)).flatten) = true) := by
  intro s g h hstable
  obtain ⟨hid, hpre, hsegs⟩ := mkGtsID_ok_parts h
  have hmap : g.gts_id_segments.map (fun sg => sg.segment) = gtsParts s := by
    rw [segsOf_map_segment hsegs, map_pyStrip_id hstable]
  have hflat : (gtsParts s).flatten = (pyStrip s).drop 4 := by
    show (mkParts (pySplit '~' ((pyStrip s).drop 4))).flatten = _
    rw [flatten_mkParts, joinSep_pySplit]
  obtain ⟨t, ht⟩ := List.isPrefixOf_iff_prefix.mp hpre
  have h4 : (pystr "gts.").length = 4 := rfl
  have hdrop : (pyStrip s).drop 4 = t := by
    rw [← ht, ← h4, List.drop_left]
  have hraw : pystr "gts." ++ (pyStrip s).drop 4 = pyStrip s := by
    rw [hdrop, ht]
  have hlen : (pyStrip s).length ≤ 1024 := mkGtsID_ok_len h
  have hlen_eq : g.gts_id_segments.length = (gtsParts s).length := by
    have := congrArg List.length hmap
    simpa using this
  constructor
  · rw [hmap, hflat, hraw, hid]
  · intro k hk0 hkle
    rw [List.map_take, hmap]
    by_cases hkfull : k = (gtsParts s).length
    · rw [hkfull, List.take_length, hflat, hraw]
      have hmk : mkGtsID (pyStrip s) = .ok ⟨pyStrip s, g.gts_id_segments⟩ :=
        mkGtsID_ok_of (pyStrip_idem s) hpre hlen hsegs
      unfold isValidGts
      rw [hpre, hmk]
      rfl
    · have hklt : k < (gtsParts s).length := by omega
      have hqs_le : (gtsParts s).length ≤ (pySplit '~' ((pyStrip s).drop 4)).length :=
        mkParts_length_le _
      have htake : (gtsParts s).take k
          = ((pySplit '~' ((pyStrip s).drop 4)).take k).map (· ++ [ '~' ]) :=
        mkParts_take _ k hklt
      set bs := (pySplit '~' ((pyStrip s).drop 4)).take k with hbs
      have hbs_len : bs.length = k := by
        rw [hbs, List.length_take]
        omega
      have hbs_ne : bs ≠ [] := by
        intro hnil
        rw [hnil] at hbs_len
        simp at hbs_len
        omega
      have hbs_free : ∀ b ∈ bs, '~' ∉ b := fun b hb =>
        pySplit_sepFree '~' _ b (List.mem_of_mem_take hb)
      have hdrop_tk : (pystr "gts." ++ ((gtsParts s).take k).flatten).drop 4
          = ((gtsParts s).take k).flatten := by
        rw [← h4, List.drop_left]
      have hparts_tk : mkParts (pySplit '~' ((gtsParts s).take k).flatten)
          = (gtsParts s).take k := by
        rw [htake, pySplit_flatten_mapSep '~' bs hbs_free, mkParts_append_nil bs hbs_ne]
      have hsegs_tk : segsOf ((gtsParts s).take k) = .ok (g.gts_id_segments.take k) :=
        segsOf_take hsegs k
      have hstrip_tk : pyStrip (pystr "gts." ++ ((gtsParts s).take k).flatten)
          = pystr "gts." ++ ((gtsParts s).take k).flatten := by
        apply pyStrip_eq_self
        · intro a ha
          have : a = 'g' := by
            simp only [pystr] at ha
            simp at ha
            exact ha.symm
          rw [this]
          decide
        · intro b hb
          obtain ⟨u, hu⟩ := flatten_mapSep_concat '~' bs hbs_ne
          rw [htake, hu, show pystr "gts." ++ (u ++ [ '~' ]) = (pystr "gts." ++ u) ++ [ '~' ] by simp,
              List.getLast?_concat] at hb
          have : b = '~' := by injection hb with h2; exact h2.symm
          rw [this]
          decide
      have hlen_tk : (pystr "gts." ++ ((gtsParts s).take k).flatten).length ≤ 1024 := by
        have hsplit : ((gtsParts s).take k).flatten.length
            + ((gtsParts s).drop k).flatten.length = (gtsParts s).flatten.length := by
          have h5 := congrArg (fun l => List.length (List.flatten l)) (List.take_append_drop k (gtsParts s))
          simpa [List.flatten_append] using h5
        have hle : ((gtsParts s).take k).flatten.length ≤ ((pyStrip s).drop 4).length := by
          rw [← hflat]
          omega
        have hrawlen : (pyStrip s).length = 4 + ((pyStrip s).drop 4).length := by
          rw [hdrop, ← ht, List.length_append, h4]
        simp only [List.length_append, h4]
        omega
      have hpre_tk : (pystr "gts.").isPrefixOf
          (pystr "gts." ++ ((gtsParts s).take k).flatten) = true :=
        List.isPrefixOf_iff_prefix.mpr (List.prefix_append _ _)
      have hmk : mkGtsID (pystr "gts." ++ ((gtsParts s).take k).flatten)
          = .ok ⟨pystr "gts." ++ ((gtsParts s).take k).flatten, g.gts_id_segments.take k⟩ := by
        apply mkGtsID_ok_of hstrip_tk hpre_tk hlen_tk
        rw [hdrop_tk, hparts_tk]
        exact hsegs_tk
      unfold isValidGts
      rw [hpre_tk, hmk]
      rfl

/-- Claim C5 (counterexample): `gts. a` parses successfully (only
leading/trailing whitespace of the whole id and of each segment is
stripped, interior content is kept verbatim in tokens), but the stored
segment string is the stripped `a`, so `gts.` + joined segments gives
`gts.a`, not the canonical id `gts. a`. -/
theorem c5_counterexample :
    mkGtsID (pystr "gts. a")
      = .ok ⟨pystr "gts. a", [{ segment := pystr "a", vendor := pystr " a" }]⟩
    ∧ pystr "gts."
        ++ (([{ segment := pystr "a", vendor := pystr " a" }] : List GtsIdSegment).map
            (fun sg => sg.segment)).flatten
      ≠ pystr "gts. a" :=
  ⟨rfl, by decide⟩

/-- Witness for `c5_segment_roundtrip` at `gts.a~b`: the stored segment
strings `a~` and `b` concatenate back to the canonical id, and the
one-segment prefix `gts.a~` is itself valid. -/
theorem c5_witness :
    pystr "gts."
      ++ (([{ segment := pystr "a~", vendor := pystr "a", is_type := true },
            { segment := pystr "b", vendor := pystr "b" }] : List GtsIdSegment).map
          (fun sg => sg.segment)).flatten
      = pystr "gts.a~b"
    ∧ isValidGts (pystr "gts."
        ++ ((([{ segment := pystr "a~", vendor := pystr "a", is_type := true },
              { segment := pystr "b", vendor := pystr "b" }] : List GtsIdSegment).take 1).map
            (fun sg => sg.segment)).flatten) = true :=
  ⟨(c5_segment_roundtrip (pystr "gts.a~b")
      ⟨pystr "gts.a~b", [{ segment := pystr "a~", vendor := pystr "a", is_type := true },
        { segment := pystr "b", vendor := pystr "b" }]⟩ rfl (by decide)).1,
   (c5_segment_roundtrip (pystr "gts.a~b")
      ⟨pystr "gts.a~b", [{ segment := pystr "a~", vendor := pystr "a", is_type := true },
        { segment := pystr "b", vendor := pystr "b" }]⟩ rfl (by decide)).2
      1 (by decide) (by decide)⟩

end GtsSpec
